import Mathlib

/-!
# gomodoro: a verification development

A shallow embedding of `main.go` (the timer engine `runTimer`, the session
accumulator updates and the orchestration in `main`) together with the
properties of the design document that can be settled on the code.

Conventions of the embedding.

* Go `int` and `time.Duration` are 64-bit signed integers. They are modelled as
  `Int`, and every arithmetic operation of the source that can overflow is
  followed by `wrapInt64` (two's-complement wrap-around).
* `time.Time` values are modelled as `Int` nanoseconds on one time axis.
  `Time.Add` is exact on that axis, `Time.Sub` saturates at the bounds of
  `time.Duration`, as in the Go standard library.
* The events handled by the `select` of `runTimer` are given as a list, each
  event carrying the value `time.Now()` has while the event is handled.
* `float64` values are modelled as rationals, every operation being followed by
  rounding to the nearest value with a 53-bit significand, ties to even. The
  exponent is not bounded: all values that arise from 64-bit operands have a
  magnitude between `2^-63` and `2^68`, well inside the normal range.
* A Go run-time panic and implementation-defined behaviour are modelled by
  `none`.
-/

namespace Gomodoro

/-! ## Machine integers and the `time` package -/

/-- Largest value of a Go `int64`. -/
def maxInt64 : Int := 9223372036854775807

/-- Smallest value of a Go `int64`. -/
def minInt64 : Int := -9223372036854775808

/-- Two's-complement wrap-around of a mathematical integer to `int64`. -/
def wrapInt64 (x : Int) : Int := (x + 9223372036854775808) % 18446744073709551616 - 9223372036854775808

/-- Value of `time.Second`, in nanoseconds. -/
def Second : Int := 1000000000

/-- Value of `time.Minute`, in nanoseconds. -/
def Minute : Int := 60 * Second

/-- Largest `time.Duration` (`maxDuration` of package `time`). -/
def maxDuration : Int := maxInt64

/-- Smallest `time.Duration` (`minDuration` of package `time`). -/
def minDuration : Int := minInt64

/-- Method `Time.Add` on the single time axis of the embedding. -/
def timeAdd (t d : Int) : Int := t + d

/-- Method `Time.Sub`: the difference `t - u`, saturated to the range of
`time.Duration`. -/
def timeSub (t u : Int) : Int :=
  if maxDuration < t - u then maxDuration
  else if t - u < minDuration then minDuration
  else t - u

/-- Function `time.Since(t)`, that is `time.Now().Sub(t)`, with the current time
passed explicitly. -/
def timeSince (now t : Int) : Int := timeSub now t

/-! ## Data model (`main.go`, lines 17-45) -/

/-- Type `TimerState` with its three constants. -/
inductive TimerState where
  | StateStopped
  | StateRunning
  | StatePaused
  deriving DecidableEq, Repr

open TimerState

/-- Struct `Timer`. -/
structure Timer where
  duration : Int
  remaining : Int
  mode : String
  state : TimerState
  startTime : Int
  pausedAt : Int
  deriving DecidableEq, Repr

/-- Struct `Session`. -/
structure Session where
  focusCount : Int
  totalFocusTime : Int
  breakCount : Int
  totalBreakTime : Int
  soundEnabled : Bool
  notificationsEnabled : Bool
  focusMinutes : Int
  shortBreakMinutes : Int
  longBreakMinutes : Int
  sessionsBeforeLongBreak : Int
  deriving DecidableEq, Repr

/-! ## Session accumulator (`main.go`, lines 117-118, 129, 145-146) -/

/-- Go remainder `a % b` on `int`: truncated remainder, a run-time panic
(`none`) when the divisor is zero. -/
def goMod (a b : Int) : Option Int :=
  if b = 0 then none else some (Int.tmod a b)

/-- The long-break decision of `main` (line 129):
`session.focusCount%session.sessionsBeforeLongBreak == 0`. -/
def isLongBreakDue (session : Session) : Option Bool :=
  (goMod session.focusCount session.sessionsBeforeLongBreak).map (fun r => decide (r = 0))

/-- The focus-completion update of `main` (lines 117-118):
`session.focusCount++` and `session.totalFocusTime += timer.duration`. -/
def recordFocusCompletion (session : Session) (timer : Timer) : Session :=
  { session with
    focusCount := wrapInt64 (session.focusCount + 1)
    totalFocusTime := wrapInt64 (session.totalFocusTime + timer.duration) }

/-- The break-completion update of `main` (lines 145-146):
`session.breakCount++` and `session.totalBreakTime += timer.duration`. -/
def recordBreakCompletion (session : Session) (timer : Timer) : Session :=
  { session with
    breakCount := wrapInt64 (session.breakCount + 1)
    totalBreakTime := wrapInt64 (session.totalBreakTime + timer.duration) }

/-! ## The `float64` operations used by the progress bar -/

/-- Rounding of a rational to the nearest integer, ties to the even one. -/
def roundHalfEven (q : ℚ) : Int :=
  if q - ⌊q⌋ < 1 / 2 then ⌊q⌋
  else if 1 / 2 < q - ⌊q⌋ then ⌊q⌋ + 1
  else if ⌊q⌋ % 2 = 0 then ⌊q⌋ else ⌊q⌋ + 1

/-- Floor of the binary logarithm by repeated halving, at most `fuel` times. -/
def log2Fuel : Nat → Nat → Nat
  | 0, _ => 0
  | fuel + 1, n => if 2 ≤ n then log2Fuel fuel (n / 2) + 1 else 0

/-- Floor of the binary logarithm of a natural number (0 for 0). -/
def floorLog2 (n : Nat) : Nat := log2Fuel n n

/-- Ceiling of the binary logarithm of a natural number (0 for 0). -/
def ceilLog2 (n : Nat) : Nat := if n ≤ 1 then 0 else floorLog2 (n - 1) + 1

/-- Binary exponent of a nonzero rational: the integer `e` with
`2^e ≤ |q| < 2^(e+1)`. -/
def binExp (q : ℚ) : Int :=
  if 1 ≤ |q| then (floorLog2 ⌊|q|⌋₊ : Int) else -(ceilLog2 ⌈|q|⁻¹⌉₊ : Int)

/-- Rounding of a rational to the nearest `float64` (53-bit significand, ties
to even): the rational is scaled so that its magnitude lies in `[2^52, 2^53)`,
rounded to an integer and scaled back. -/
def roundF64 (q : ℚ) : ℚ :=
  if q = 0 then 0
  else (roundHalfEven (q / (2 : ℚ) ^ (binExp q - 52)) : ℚ) * (2 : ℚ) ^ (binExp q - 52)

/-- Conversion `float64(x)` of an `int64`. -/
def f64OfInt (x : Int) : ℚ := roundF64 (x : ℚ)

/-- Division of two `float64` values. A zero divisor yields an infinity or a
NaN, whose later conversion to `int` is implementation-defined: `none`. -/
def f64Div (x y : ℚ) : Option ℚ :=
  if y = 0 then none else some (roundF64 (x / y))

/-- Multiplication of two `float64` values. -/
def f64Mul (x y : ℚ) : ℚ := roundF64 (x * y)

/-- Function `math.Floor`. -/
def f64Floor (x : ℚ) : ℚ := (⌊x⌋ : ℚ)

/-- Conversion `int(x)` of a `float64`: truncation towards zero, and
implementation-defined (`none`) when the result does not fit an `int`. -/
def f64ToInt (x : ℚ) : Option Int :=
  let n : Int := if 0 ≤ x then ⌊x⌋ else ⌈x⌉
  if minInt64 ≤ n ∧ n ≤ maxInt64 then some n else none

/-- The fill count of the progress bar (line 198):
`int(math.Floor(float64(elapsed) / float64(timer.duration) * 20))`. -/
def progressOf (elapsed duration : Int) : Option Int :=
  match f64Div (f64OfInt elapsed) (f64OfInt duration) with
  | none => none
  | some q => f64ToInt (f64Floor (f64Mul q 20))

/-- Function `strings.Repeat`: a run-time panic (`none`) on a negative count. -/
def stringsRepeat (s : String) (count : Int) : Option String :=
  if count < 0 then none else some (String.join (List.replicate count.toNat s))

/-- The progress bar (line 199):
`strings.Repeat("█", progress) + strings.Repeat("░", 20-progress)`. -/
def renderBar (progress : Int) : Option String :=
  match stringsRepeat "█" progress, stringsRepeat "░" (wrapInt64 (20 - progress)) with
  | some filled, some empty => some (filled ++ empty)
  | _, _ => none

/-! ## The timer engine `runTimer` (`main.go`, lines 180-224) -/

/-- The variables of the loop of `runTimer`: the timer (a local copy, as the
argument is passed by value) and the local `endTime`. -/
structure LoopState where
  timer : Timer
  endTime : Int
  deriving DecidableEq, Repr

/-- One event received by the `select` of `runTimer`, with the value that
`time.Now()` has while the event is handled. -/
inductive Event where
  | tick (now : Int)
  | input (line : String) (now : Int)
  deriving DecidableEq, Repr

/-- Time at which an event is handled. -/
def Event.now : Event → Int
  | .tick now => now
  | .input _ now => now

/-- What a tick handled in the Running state computes (lines 192-199); the
minutes and seconds shown next to the bar are display-only and not modelled. -/
structure Frame where
  remaining : Int
  elapsed : Int
  progress : Int
  bar : String
  deriving DecidableEq, Repr

/-- Lines 192-199: the new `remaining`, clamped at zero, `elapsed`, the fill
count `progress` and the bar. -/
def renderTick (s : LoopState) (now : Int) : Option Frame :=
  let remaining := if timeSub s.endTime now < 0 then 0 else timeSub s.endTime now
  let elapsed := wrapInt64 (s.timer.duration - remaining)
  match progressOf elapsed s.timer.duration with
  | none => none
  | some progress =>
    match renderBar progress with
    | none => none
    | some bar => some { remaining := remaining, elapsed := elapsed, progress := progress, bar := bar }

/-- Case `<-ticker.C` of the `select` (lines 190-210). -/
def handleTick (s : LoopState) (now : Int) : Option LoopState :=
  if s.timer.state = StateRunning then
    match renderTick s now with
    | none => none
    | some frame => some { s with timer := { s.timer with remaining := frame.remaining } }
  else some s

/-- Case `input := <-inputChan` of the `select` (lines 211-221). -/
def handleInput (s : LoopState) (input : String) (now : Int) : LoopState :=
  if input = "" then
    if s.timer.state = StateRunning then
      { s with timer := { s.timer with state := StatePaused, pausedAt := now } }
    else if s.timer.state = StatePaused then
      { timer := { s.timer with state := StateRunning }
        endTime := timeAdd s.endTime (timeSince now s.timer.pausedAt) }
    else s
  else s

/-- One iteration of the loop body: the `select` on one event. -/
def step (s : LoopState) : Event → Option LoopState
  | .tick now => handleTick s now
  | .input line now => some (handleInput s line now)

/-- The loop `for timer.remaining > 0` over the events that arrive. The result
is the state in which the loop stopped together with the events that were not
consumed: the loop has exited when `remaining` is no longer positive, and it
is blocked in the `select` when the events ran out first. -/
def runLoop (s : LoopState) : List Event → Option (LoopState × List Event)
  | [] => some (s, [])
  | e :: es =>
    if 0 < s.timer.remaining then
      match step s e with
      | none => none
      | some s' => runLoop s' es
    else some (s, e :: es)

/-- State of the loop when it is entered (lines 184-186), `start` being the
value of `time.Now()` at line 185. -/
def runTimerInit (timer : Timer) (start : Int) : LoopState :=
  { timer := { timer with remaining := timer.duration, startTime := start }
    endTime := timeAdd start timer.duration }

/-- Function `runTimer`. -/
def runTimer (timer : Timer) (start : Int) (events : List Event) : Option (LoopState × List Event) :=
  runLoop (runTimerInit timer start) events

/-! ## Orchestration in `main` (`main.go`, lines 47-153) -/

/-- The parsed command-line flags. -/
structure Config where
  focusMinutes : Int
  breakMinutes : Int
  longBreakMinutes : Int
  sessionsBeforeLongBreak : Int
  sound : Bool
  notifications : Bool
  showHelp : Bool
  deriving DecidableEq, Repr

/-- What one call of `runTimer` receives from its environment: the time at
which it starts and the events its loop handles. -/
structure PhaseInput where
  start : Int
  events : List Event
  deriving DecidableEq, Repr

/-- How far `main` got. -/
inductive Outcome where
  | helpShown
  | waiting
  | panicked
  | returned
  deriving DecidableEq, Repr

/-- Observable summary of a run of `main`: the timers handed to `runTimer`, in
order, the collaborator calls (`beep`, `notify` with its message), the session
record and the outcome. -/
structure MainResult where
  phases : List Timer
  effects : List String
  session : Session
  outcome : Outcome
  deriving DecidableEq, Repr

/-- Whether a call of `runTimer` returned: `none` for a panic, `some false`
when the loop is still waiting for events, `some true` when it exited. -/
def runTimerReturns (timer : Timer) (input : PhaseInput) : Option Bool :=
  match runTimer timer input.start input.events with
  | none => none
  | some (s, _) => some (decide (s.timer.remaining ≤ 0))

/-- The session record that `main` builds from the flags (lines 93-100). -/
def initialSession (cfg : Config) : Session :=
  { focusCount := 0, totalFocusTime := 0, breakCount := 0, totalBreakTime := 0
    soundEnabled := cfg.sound
    notificationsEnabled := cfg.notifications
    focusMinutes := cfg.focusMinutes
    shortBreakMinutes := cfg.breakMinutes
    longBreakMinutes := cfg.longBreakMinutes
    sessionsBeforeLongBreak := cfg.sessionsBeforeLongBreak }

/-- The timer that `main` builds for the focus phase (lines 87-91); the fields
that the literal leaves out have their zero value. -/
def focusTimer (focusMinutes : Int) : Timer :=
  { duration := wrapInt64 (focusMinutes * Minute), remaining := 0, mode := "FOCUS"
    state := StateRunning, startTime := 0, pausedAt := 0 }

/-- Lines 127-136 of `main`: the timer is relabelled `BREAK`, its duration is
the long break when the long-break decision holds and the short break
otherwise, and its state is set to Running. The result is `none` when the
decision panics. -/
def breakTimer (session : Session) (timer : Timer) : Option Timer :=
  match isLongBreakDue session with
  | none => none
  | some true =>
    some { timer with mode := "BREAK", duration := wrapInt64 (session.longBreakMinutes * Minute)
                      state := StateRunning }
  | some false =>
    some { timer with mode := "BREAK", duration := wrapInt64 (session.shortBreakMinutes * Minute)
                      state := StateRunning }

/-- Function `main` after flag parsing. Printing and the goroutine that waits
for an interrupt signal are not modelled; with `-h` the function exits before
any timer is started. -/
def main (cfg : Config) (focusInput breakInput : PhaseInput) : MainResult :=
  let session := initialSession cfg
  if cfg.showHelp then
    { phases := [], effects := [], session := session, outcome := .helpShown }
  else
    let timer := focusTimer cfg.focusMinutes
    let fx1 : List String := if session.soundEnabled then ["beep"] else []
    match runTimerReturns timer focusInput with
    | none => { phases := [timer], effects := fx1, session := session, outcome := .panicked }
    | some false => { phases := [timer], effects := fx1, session := session, outcome := .waiting }
    | some true =>
      let session := recordFocusCompletion session timer
      let fx2 := fx1 ++
        (if session.notificationsEnabled then ["notify: " ++ timer.mode ++ " session completed!"]
         else [])
      match breakTimer session timer with
      | none => { phases := [timer], effects := fx2, session := session, outcome := .panicked }
      | some timerB =>
        let fx3 := fx2 ++ (if session.soundEnabled then ["beep"] else [])
        match runTimerReturns timerB breakInput with
        | none =>
          { phases := [timer, timerB], effects := fx3, session := session, outcome := .panicked }
        | some false =>
          { phases := [timer, timerB], effects := fx3, session := session, outcome := .waiting }
        | some true =>
          let session := recordBreakCompletion session timerB
          let fx4 := fx3 ++
            (if session.notificationsEnabled then
              ["notify: " ++ timerB.mode ++ " session completed! Great job!"]
             else [])
          { phases := [timer, timerB], effects := fx4, session := session, outcome := .returned }

/-! ## Notions used to state the properties -/

/-- The events are handled at non-decreasing times, none before `last`. -/
def nondecreasing (last : Int) : List Event → Bool
  | [] => true
  | e :: es => decide (last ≤ e.now) && nondecreasing e.now es

/-- Every time stamp is a reading of a 64-bit nanosecond clock. -/
def clockBounded (events : List Event) : Bool :=
  events.all (fun e => decide (e.now ≤ maxInt64))

/-- Time at which the last event of the list is handled (`last` if there is
none). -/
def lastTime (last : Int) : List Event → Int
  | [] => last
  | e :: es => lastTime e.now es

/-- Sum of the lengths of the intervals that the loop spends in the Running
state while it handles the events, the previous event having been handled at
time `last`: the time between two consecutive events counts when the state
between them is Running. -/
def runningTime (s : LoopState) (last : Int) : List Event → Int
  | [] => 0
  | e :: es =>
    if 0 < s.timer.remaining then
      (if s.timer.state = StateRunning then e.now - last else 0) +
        (match step s e with
         | none => 0
         | some s' => runningTime s' e.now es)
    else 0

/-- Sum of the lengths of the intervals that the loop spends in the Paused
state while it handles the events, the previous event having been handled at
time `last`. -/
def pausedTime (s : LoopState) (last : Int) : List Event → Int
  | [] => 0
  | e :: es =>
    if 0 < s.timer.remaining then
      (if s.timer.state = StatePaused then e.now - last else 0) +
        (match step s e with
         | none => 0
         | some s' => pausedTime s' e.now es)
    else 0

/-- The ticks are handled on a fixed one-second cadence: each tick is handled
exactly one second after the previous one, the first one second after
`lastTick`. -/
def onCadence (lastTick : Int) : List Event → Bool
  | [] => true
  | .tick now :: es => decide (now = lastTick + Second) && onCadence now es
  | .input _ _ :: es => onCadence lastTick es

/-- Every tick that the loop handles finds the timer in the Running state: no
tick falls into a paused interval. -/
def ticksFindRunning (s : LoopState) : List Event → Bool
  | [] => true
  | e :: es =>
    if 0 < s.timer.remaining then
      (match e with
       | .tick _ => decide (s.timer.state = StateRunning)
       | .input _ _ => true) &&
      (match step s e with
       | none => true
       | some s' => ticksFindRunning s' es)
    else true

/-- The first `n` ticks of a ticker that is handled without delay: tick `k` is
handled at `start + k` seconds, for `k = 1, ..., n`. -/
def tickEvents (start : Int) (n : Nat) : List Event :=
  (List.range' 1 n).map (fun (k : Nat) => Event.tick (start + (k : Int) * Second))

/-- A session with the given `focusCount` and `sessionsBeforeLongBreak`, all
other fields zero. -/
def sessionWith (focusCount sessionsBeforeLongBreak : Int) : Session :=
  { focusCount := focusCount, totalFocusTime := 0, breakCount := 0, totalBreakTime := 0
    soundEnabled := false, notificationsEnabled := false, focusMinutes := 0
    shortBreakMinutes := 0, longBreakMinutes := 0
    sessionsBeforeLongBreak := sessionsBeforeLongBreak }

/-- A one-minute focus run entered at second 5 of the clock: the user pauses
half a second in, two ticks go by while the timer is paused, and the user
resumes at 2.5 seconds. -/
def pausedRunEvents : List Event :=
  [ Event.input "" 5500000000, Event.tick 6000000000, Event.tick 7000000000,
    Event.input "" 7500000000 ]

/-- The state of the loop after `pausedRunEvents`: Running again, `endTime`
moved two seconds later. -/
def pausedRunState : LoopState :=
  { timer := { duration := 60000000000, remaining := 60000000000, mode := "FOCUS"
               state := StateRunning, startTime := 5000000000, pausedAt := 5500000000 }
    endTime := 67000000000 }

/-- Invariant of the loop that needs no assumption on the clock: the timer was
entered in the Running state with duration `D`, the last event was handled at
time `last`, and `endTime` is never more than `D` ahead of the time at which
the timer last ran. -/
structure Inv (D : Int) (s : LoopState) (last : Int) : Prop where
  dur : s.timer.duration = D
  active : s.timer.state ≠ StateStopped
  rem_nonneg : 0 ≤ s.timer.remaining
  rem_le : s.timer.remaining ≤ D
  running : s.timer.state = StateRunning → s.endTime ≤ last + D
  paused : s.timer.state = StatePaused →
    s.endTime ≤ s.timer.pausedAt + D ∧ s.timer.pausedAt ≤ last

/-- Invariant of the loop that relates the state to the time `R` spent in the
Running state so far and to the value `Rt` that `R` had at the last tick
handled in the Running state. -/
structure InvR (D : Int) (s : LoopState) (last R Rt : Int) : Prop where
  dur : s.timer.duration = D
  active : s.timer.state ≠ StateStopped
  clock : 0 ≤ last
  rem : s.timer.remaining = max 0 (D - Rt)
  tick_nonneg : 0 ≤ Rt
  tick_le : Rt ≤ R
  running : s.timer.state = StateRunning → s.endTime = last + D - R
  paused : s.timer.state = StatePaused →
    s.endTime = s.timer.pausedAt + D - R ∧ 0 ≤ s.timer.pausedAt ∧ s.timer.pausedAt ≤ last

/-- Running time after one more event, handled at `e.now`. -/
def ranAfter (s : LoopState) (last R : Int) (e : Event) : Int :=
  if s.timer.state = StateRunning then R + (e.now - last) else R

/-- Running time at the last tick handled in the Running state, after one more
event. -/
def ranAtTickAfter (s : LoopState) (last R Rt : Int) : Event → Int
  | .tick now => if s.timer.state = StateRunning then R + (now - last) else Rt
  | .input _ _ => Rt

/-- The focus-completion update applied once for each timer of a list. -/
def recordFocusCompletions (session : Session) (timers : List Timer) : Session :=
  timers.foldl recordFocusCompletion session

/-- A timer engine run that receives ticks only: it starts at `start` and tick
`k` is handled at `start + k` seconds, for `k = 1, ..., n`. -/
def tickedPhase (start : Int) (n : Nat) : PhaseInput :=
  { start := start, events := tickEvents start n }

/-- A one-minute run on a one-second cadence in which the user pauses just
before the ticks of seconds 60 and 61 and resumes just after them: both ticks
fall into a paused interval, and the run completes at the tick of second 62. -/
def skippedTickEvents : List Event :=
  tickEvents 0 59 ++
    [ Event.input "" 59900000000, Event.tick 60000000000, Event.input "" 60100000000,
      Event.input "" 60900000000, Event.tick 61000000000, Event.input "" 61100000000,
      Event.tick 62000000000 ]

/-- State of a one-minute focus timer that is running, ten seconds in. -/
def runningState : LoopState :=
  { timer := { duration := 60000000000, remaining := 50000000000, mode := "FOCUS"
               state := StateRunning, startTime := 0, pausedAt := 0 }
    endTime := 60000000000 }

/-- Flags `-f 1 -b 1 -l 2 -s -1`. -/
def negativeSessionsConfig : Config :=
  { focusMinutes := 1, breakMinutes := 1, longBreakMinutes := 2, sessionsBeforeLongBreak := -1
    sound := true, notifications := true, showHelp := false }

/-- Flags `-f 1 -b 1 -l 2 -s 0`. -/
def zeroSessionsConfig : Config :=
  { focusMinutes := 1, breakMinutes := 1, longBreakMinutes := 2, sessionsBeforeLongBreak := 0
    sound := true, notifications := true, showHelp := false }

/-- Flags `-f 1 -b 1 -l 1 -s 2`. -/
def twoSessionsConfig : Config :=
  { focusMinutes := 1, breakMinutes := 1, longBreakMinutes := 1, sessionsBeforeLongBreak := 2
    sound := true, notifications := true, showHelp := false }

/-- Flags `-f 1`, the other flags having their default: `-b 5 -l 15 -s 4`. -/
def oneMinuteFocusConfig : Config :=
  { focusMinutes := 1, breakMinutes := 5, longBreakMinutes := 15, sessionsBeforeLongBreak := 4
    sound := true, notifications := true, showHelp := false }

/-- A 25-minute timer. -/
def pomodoro : Timer := focusTimer 25

/-- The first part of a one-minute run on a one-second cadence in which the user
pauses from 10.5 to 20.7 seconds: ten ticks handled in the Running state, the
pause, the ten ticks of seconds 11 to 20, which fall into the paused interval,
and the resume. -/
def longPauseEvents : List Event :=
  tickEvents 0 10 ++
    (Event.input "" 10500000000 ::
      ((List.range' 11 10).map (fun (k : Nat) => Event.tick ((k : Int) * Second)) ++
        [Event.input "" 20700000000]))

/-- The ticks of seconds 22 to 71, which follow the tick of second 21. -/
def longPauseLastTicks : List Event :=
  (List.range' 22 50).map (fun (k : Nat) => Event.tick ((k : Int) * Second))

/-- The state of the loop after `longPauseEvents`: Running again, `endTime`
moved 10.2 seconds later, `remaining` as computed by the tick of second 10. -/
def longPauseResumed : LoopState :=
  { timer := { duration := 60000000000, remaining := 50000000000, mode := "FOCUS"
               state := StateRunning, startTime := 0, pausedAt := 10500000000 }
    endTime := 70200000000 }

/-- The state of the loop after the tick of second 21, the first tick handled in
the Running state after the pause. -/
def longPauseAnchor : LoopState :=
  { longPauseResumed with timer := { longPauseResumed.timer with remaining := 49200000000 } }

/-- The state in which the run completes, at the tick of second 71. -/
def longPauseFinal : LoopState :=
  { longPauseResumed with timer := { longPauseResumed.timer with remaining := 0 } }

/-- The break timer that `main` builds when the long-break decision is false. -/
def shortBreakTimer (cfg : Config) : Timer :=
  { focusTimer cfg.focusMinutes with
    mode := "BREAK", duration := wrapInt64 (cfg.breakMinutes * Minute), state := StateRunning }

/-- The break timer that `main` builds when the long-break decision is true. -/
def longBreakTimer (cfg : Config) : Timer :=
  { focusTimer cfg.focusMinutes with
    mode := "BREAK", duration := wrapInt64 (cfg.longBreakMinutes * Minute), state := StateRunning }

/-- The session at the moment `main` takes the long-break decision: the initial
session after the focus-completion update. -/
def sessionAtDecision (cfg : Config) : Session :=
  recordFocusCompletion (initialSession cfg) (focusTimer cfg.focusMinutes)

/-! ## Machine integers -/

theorem wrapInt64_of_mem {x : Int} (h1 : minInt64 ≤ x) (h2 : x ≤ maxInt64) : wrapInt64 x = x := by
  unfold wrapInt64
  unfold minInt64 at h1
  unfold maxInt64 at h2
  omega

theorem wrapInt64_add_left (a b : Int) : wrapInt64 (wrapInt64 a + b) = wrapInt64 (a + b) := by
  unfold wrapInt64
  omega

/-! ## Session accumulator -/

/-- C1. For `sessionsBeforeLongBreak = s ≥ 1` and `focusCount = n ≥ 1` the
long-break decision `focusCount % sessionsBeforeLongBreak == 0` does not panic
and is true exactly when `s` divides `n`; it is false for
`(n, s) = (1, 4), (2, 4), (3, 4)` and true for `(4, 4), (8, 4), (3, 3)`. -/
theorem isLongBreakDue_iff_dvd (session : Session)
    (hs : 1 ≤ session.sessionsBeforeLongBreak) (_hn : 1 ≤ session.focusCount) :
    (∃ b, isLongBreakDue session = some b ∧
      (b = true ↔ session.sessionsBeforeLongBreak ∣ session.focusCount)) ∧
    isLongBreakDue (sessionWith 1 4) = some false ∧
    isLongBreakDue (sessionWith 2 4) = some false ∧
    isLongBreakDue (sessionWith 3 4) = some false ∧
    isLongBreakDue (sessionWith 4 4) = some true ∧
    isLongBreakDue (sessionWith 8 4) = some true ∧
    isLongBreakDue (sessionWith 3 3) = some true := by
  refine ⟨?_, by decide, by decide, by decide, by decide, by decide, by decide⟩
  have hne : session.sessionsBeforeLongBreak ≠ 0 := by omega
  refine ⟨decide (Int.tmod session.focusCount session.sessionsBeforeLongBreak = 0), ?_, ?_⟩
  · simp only [isLongBreakDue, goMod, if_neg hne, Option.map_some']
  · rw [decide_eq_true_eq]
    exact Int.dvd_iff_tmod_eq_zero.symm

/-- Instance of C1 at `focusCount = 8`, `sessionsBeforeLongBreak = 4`. -/
theorem isLongBreakDue_iff_dvd_witness :
    ∃ b, isLongBreakDue (sessionWith 8 4) = some b ∧ (b = true ↔ (4 : Int) ∣ 8) :=
  (isLongBreakDue_iff_dvd (sessionWith 8 4) (by decide) (by decide)).1

theorem recordFocusCompletions_spec (timers : List Timer) :
    ∀ session : Session,
      (recordFocusCompletions session timers).focusCount
          = (if timers = [] then session.focusCount
             else wrapInt64 (session.focusCount + timers.length)) ∧
      (recordFocusCompletions session timers).totalFocusTime
          = (if timers = [] then session.totalFocusTime
             else wrapInt64 (session.totalFocusTime + (timers.map Timer.duration).sum)) ∧
      (recordFocusCompletions session timers).breakCount = session.breakCount ∧
      (recordFocusCompletions session timers).totalBreakTime = session.totalBreakTime ∧
      (recordFocusCompletions session timers).soundEnabled = session.soundEnabled ∧
      (recordFocusCompletions session timers).notificationsEnabled
          = session.notificationsEnabled ∧
      (recordFocusCompletions session timers).focusMinutes = session.focusMinutes ∧
      (recordFocusCompletions session timers).shortBreakMinutes = session.shortBreakMinutes ∧
      (recordFocusCompletions session timers).longBreakMinutes = session.longBreakMinutes ∧
      (recordFocusCompletions session timers).sessionsBeforeLongBreak
          = session.sessionsBeforeLongBreak := by
  induction timers with
  | nil =>
    intro session
    simp [recordFocusCompletions]
  | cons t ts ih =>
    intro session
    have h := ih (recordFocusCompletion session t)
    have hfold : recordFocusCompletions session (t :: ts)
        = recordFocusCompletions (recordFocusCompletion session t) ts := rfl
    rw [hfold]
    obtain ⟨h1, h2, h3, h4, h5, h6, h7, h8, h9, h10⟩ := h
    refine ⟨?_, ?_, h3, h4, h5, h6, h7, h8, h9, h10⟩
    · rw [h1, if_neg (List.cons_ne_nil t ts)]
      by_cases hts : ts = []
      · subst hts
        simp [recordFocusCompletion]
      · rw [if_neg hts]
        simp only [recordFocusCompletion, List.length_cons, Nat.cast_add, Nat.cast_one]
        rw [wrapInt64_add_left]
        congr 1
        omega
    · rw [h2, if_neg (List.cons_ne_nil t ts)]
      by_cases hts : ts = []
      · subst hts
        simp [recordFocusCompletion]
      · rw [if_neg hts]
        simp only [recordFocusCompletion, List.map_cons, List.sum_cons]
        rw [wrapInt64_add_left]
        congr 1
        omega

/-- C9. Applying the focus-completion update (`focusCount++`,
`totalFocusTime += timer.duration`) once for each of `k` timers with durations
`d1, ..., dk` to any session with `focusCount = k0` and `totalFocusTime = t0`
yields `focusCount = k0 + k` and `totalFocusTime = t0 + d1 + ... + dk`, these
two values being representable in 64 bits, and leaves `breakCount`,
`totalBreakTime` and all configuration fields unchanged; with `k` equal
durations `d` the total is `t0 + k * d`. -/
theorem recordFocusCompletions_totals (session : Session) (timers : List Timer)
    (hk : session.focusCount + timers.length ≤ maxInt64)
    (hk' : minInt64 ≤ session.focusCount + timers.length)
    (ht : session.totalFocusTime + (timers.map Timer.duration).sum ≤ maxInt64)
    (ht' : minInt64 ≤ session.totalFocusTime + (timers.map Timer.duration).sum) :
    (recordFocusCompletions session timers).focusCount = session.focusCount + timers.length ∧
    (recordFocusCompletions session timers).totalFocusTime
        = session.totalFocusTime + (timers.map Timer.duration).sum ∧
    (∀ d, (∀ t ∈ timers, t.duration = d) →
      (recordFocusCompletions session timers).totalFocusTime
        = session.totalFocusTime + timers.length * d) ∧
    (recordFocusCompletions session timers).breakCount = session.breakCount ∧
    (recordFocusCompletions session timers).totalBreakTime = session.totalBreakTime ∧
    (recordFocusCompletions session timers).soundEnabled = session.soundEnabled ∧
    (recordFocusCompletions session timers).notificationsEnabled
        = session.notificationsEnabled ∧
    (recordFocusCompletions session timers).focusMinutes = session.focusMinutes ∧
    (recordFocusCompletions session timers).shortBreakMinutes = session.shortBreakMinutes ∧
    (recordFocusCompletions session timers).longBreakMinutes = session.longBreakMinutes ∧
    (recordFocusCompletions session timers).sessionsBeforeLongBreak
        = session.sessionsBeforeLongBreak := by
  obtain ⟨h1, h2, h3, h4, h5, h6, h7, h8, h9, h10⟩ := recordFocusCompletions_spec timers session
  have e1 : (recordFocusCompletions session timers).focusCount
      = session.focusCount + timers.length := by
    rw [h1]
    split_ifs with hnil
    · subst hnil; simp
    · exact wrapInt64_of_mem hk' hk
  have e2 : (recordFocusCompletions session timers).totalFocusTime
      = session.totalFocusTime + (timers.map Timer.duration).sum := by
    rw [h2]
    split_ifs with hnil
    · subst hnil; simp
    · exact wrapInt64_of_mem ht' ht
  refine ⟨e1, e2, ?_, h3, h4, h5, h6, h7, h8, h9, h10⟩
  intro d hd
  rw [e2]
  congr 1
  have hmap : timers.map Timer.duration = List.replicate timers.length d := by
    apply List.eq_replicate_iff.2
    refine ⟨by simp, ?_⟩
    intro x hx
    obtain ⟨t, ht, rfl⟩ := List.mem_map.1 hx
    exact hd t ht
  rw [hmap, List.sum_replicate]
  simp

/-- Instance of C9: three 25-minute focus phases from an empty session give a
count of 3 and a total of 75 minutes. -/
theorem recordFocusCompletions_totals_witness :
    (recordFocusCompletions (sessionWith 0 4) [pomodoro, pomodoro, pomodoro]).focusCount = 3 ∧
    (recordFocusCompletions (sessionWith 0 4) [pomodoro, pomodoro, pomodoro]).totalFocusTime
      = 75 * Minute := by
  have h := recordFocusCompletions_totals (sessionWith 0 4) [pomodoro, pomodoro, pomodoro]
    (by decide) (by decide) (by decide) (by decide)
  exact ⟨h.1, h.2.1⟩

/-! ## Rounding to `float64` is monotone -/

theorem floor_le_roundHalfEven (q : ℚ) : ⌊q⌋ ≤ roundHalfEven q := by
  unfold roundHalfEven
  split_ifs <;> omega

theorem roundHalfEven_le_floor_succ (q : ℚ) : roundHalfEven q ≤ ⌊q⌋ + 1 := by
  unfold roundHalfEven
  split_ifs <;> omega

theorem roundHalfEven_intCast (n : Int) : roundHalfEven (n : ℚ) = n := by
  unfold roundHalfEven
  simp

theorem roundHalfEven_mono {a b : ℚ} (h : a ≤ b) : roundHalfEven a ≤ roundHalfEven b := by
  have hf : ⌊a⌋ ≤ ⌊b⌋ := Int.floor_mono h
  rcases hf.lt_or_eq with hlt | heq
  · calc roundHalfEven a ≤ ⌊a⌋ + 1 := roundHalfEven_le_floor_succ a
      _ ≤ ⌊b⌋ := hlt
      _ ≤ roundHalfEven b := floor_le_roundHalfEven b
  · unfold roundHalfEven
    rw [heq]
    split_ifs <;> first | omega | (exfalso; linarith)

theorem log2Fuel_eq (fuel : Nat) : ∀ n, n ≤ fuel → log2Fuel fuel n = Nat.log 2 n := by
  induction fuel with
  | zero =>
    intro n hn
    have : n = 0 := by omega
    subst this
    simp [log2Fuel]
  | succ f ih =>
    intro n hn
    unfold log2Fuel
    split_ifs with h
    · rw [ih (n / 2) (by omega), Nat.log_of_one_lt_of_le (by norm_num) h]
    · exact (Nat.log_of_lt (by omega)).symm

theorem floorLog2_eq (n : Nat) : floorLog2 n = Nat.log 2 n := log2Fuel_eq n n (le_refl n)

theorem ceilLog2_eq (n : Nat) : ceilLog2 n = Nat.clog 2 n := by
  unfold ceilLog2
  split_ifs with h
  · exact (Nat.clog_of_right_le_one h 2).symm
  · have hn : 2 ≤ n := by omega
    rw [floorLog2_eq]
    apply le_antisymm
    · have h1 : n ≤ 2 ^ Nat.clog 2 n := Nat.le_pow_clog (by norm_num) n
      have h2 : n - 1 < 2 ^ Nat.clog 2 n := by omega
      have h3 : Nat.log 2 (n - 1) < Nat.clog 2 n :=
        (Nat.lt_pow_iff_log_lt (by norm_num) (by omega)).1 h2
      omega
    · rw [← Nat.le_pow_iff_clog_le (by norm_num)]
      have := Nat.lt_pow_succ_log_self (b := 2) (by norm_num) (n - 1)
      omega

/-- The binary exponent is the integer logarithm to base 2. -/
theorem binExp_eq (q : ℚ) : binExp q = Int.log 2 |q| := by
  unfold binExp Int.log
  split_ifs
  · rw [floorLog2_eq]
  · rw [ceilLog2_eq]

theorem roundF64_zero : roundF64 0 = 0 := by simp [roundF64]

theorem roundF64_one : roundF64 1 = 1 := by decide!

theorem roundF64_twenty : roundF64 20 = 20 := by decide!

theorem roundF64_nonneg {a : ℚ} (ha : 0 ≤ a) : 0 ≤ roundF64 a := by
  unfold roundF64
  rw [binExp_eq]
  split_ifs with h0
  · exact le_refl 0
  · have hq : (0 : ℚ) ≤ a / (2 : ℚ) ^ (Int.log 2 |a| - 52) := by positivity
    have h1 : (0 : Int) ≤ roundHalfEven (a / (2 : ℚ) ^ (Int.log 2 |a| - 52)) := by
      have := roundHalfEven_mono hq
      rwa [show (0 : ℚ) = ((0 : Int) : ℚ) by simp, roundHalfEven_intCast] at this
    have h2 : (0 : ℚ) ≤ (roundHalfEven (a / (2 : ℚ) ^ (Int.log 2 |a| - 52)) : ℚ) := by exact_mod_cast h1
    positivity

/-- A positive rational and its rounding lie between the same two consecutive
powers of two. -/
theorem roundF64_pos_bounds {a : ℚ} (ha : 0 < a) :
    (2 : ℚ) ^ Int.log 2 a ≤ roundF64 a ∧ roundF64 a ≤ (2 : ℚ) ^ (Int.log 2 a + 1) := by
  have hne : a ≠ 0 := ne_of_gt ha
  have habs : |a| = a := abs_of_pos ha
  have hlo : ((2 : ℕ) : ℚ) ^ Int.log 2 a ≤ a := Int.zpow_log_le_self (by norm_num) ha
  have hhi : a < ((2 : ℕ) : ℚ) ^ (Int.log 2 a + 1) := Int.lt_zpow_succ_log_self (by norm_num) a
  simp only [Nat.cast_ofNat] at hlo hhi
  have hpos : (0 : ℚ) < (2 : ℚ) ^ (Int.log 2 a - 52) := by positivity
  have e1 : (2 : ℚ) ^ Int.log 2 a = ((2 ^ 52 : Int) : ℚ) * (2 : ℚ) ^ (Int.log 2 a - 52) := by
    rw [zpow_sub₀ (by norm_num : (2 : ℚ) ≠ 0)]
    push_cast
    field_simp
    norm_num
    ring
  have e2 : (2 : ℚ) ^ (Int.log 2 a + 1) = ((2 ^ 53 : Int) : ℚ) * (2 : ℚ) ^ (Int.log 2 a - 52) := by
    rw [zpow_sub₀ (by norm_num : (2 : ℚ) ≠ 0), zpow_add₀ (by norm_num : (2 : ℚ) ≠ 0)]
    push_cast
    field_simp
    norm_num
    ring
  have q1 : ((2 ^ 52 : Int) : ℚ) ≤ a / (2 : ℚ) ^ (Int.log 2 a - 52) := by
    rw [le_div_iff₀ hpos, ← e1]; exact hlo
  have q2 : a / (2 : ℚ) ^ (Int.log 2 a - 52) ≤ ((2 ^ 53 : Int) : ℚ) := by
    rw [div_le_iff₀ hpos, ← e2]; exact le_of_lt hhi
  have r1 := roundHalfEven_mono q1
  have r2 := roundHalfEven_mono q2
  rw [roundHalfEven_intCast] at r1 r2
  unfold roundF64
  rw [binExp_eq, if_neg hne, habs, e1, e2]
  constructor
  · exact mul_le_mul_of_nonneg_right (by exact_mod_cast r1) (le_of_lt hpos)
  · exact mul_le_mul_of_nonneg_right (by exact_mod_cast r2) (le_of_lt hpos)

theorem roundF64_mono {a b : ℚ} (ha : 0 ≤ a) (h : a ≤ b) : roundF64 a ≤ roundF64 b := by
  rcases ha.lt_or_eq with hpos | hzero
  · have hb : 0 < b := lt_of_lt_of_le hpos h
    have hlog : Int.log 2 a ≤ Int.log 2 b := Int.log_mono_right hpos h
    rcases hlog.lt_or_eq with hlt | heq
    · calc roundF64 a ≤ (2 : ℚ) ^ (Int.log 2 a + 1) := (roundF64_pos_bounds hpos).2
        _ ≤ (2 : ℚ) ^ Int.log 2 b := zpow_le_zpow_right₀ (by norm_num) (by omega)
        _ ≤ roundF64 b := (roundF64_pos_bounds hb).1
    · unfold roundF64
      rw [binExp_eq, binExp_eq, if_neg (ne_of_gt hpos), if_neg (ne_of_gt hb), abs_of_pos hpos,
        abs_of_pos hb, heq]
      have hp : (0 : ℚ) < (2 : ℚ) ^ (Int.log 2 b - 52) := by positivity
      have hq : a / (2 : ℚ) ^ (Int.log 2 b - 52) ≤ b / (2 : ℚ) ^ (Int.log 2 b - 52) :=
        div_le_div_of_nonneg_right h (le_of_lt hp)
      have := roundHalfEven_mono hq
      exact mul_le_mul_of_nonneg_right (by exact_mod_cast this) (le_of_lt hp)
  · rw [← hzero, roundF64_zero]
    exact roundF64_nonneg (le_trans ha h)

/-- The fill count is defined and lies between 0 and 20 whenever
`0 ≤ elapsed ≤ duration` and the duration is positive. -/
theorem progressOf_bounds {e d : Int} (he : 0 ≤ e) (hed : e ≤ d) (hd : 0 < d) :
    ∃ p, progressOf e d = some p ∧ 0 ≤ p ∧ p ≤ 20 := by
  have hx0 : 0 ≤ f64OfInt e := roundF64_nonneg (by exact_mod_cast he)
  have hxy : f64OfInt e ≤ f64OfInt d :=
    roundF64_mono (by exact_mod_cast he) (by exact_mod_cast hed)
  have hy1 : 1 ≤ f64OfInt d := by
    have := roundF64_mono (a := 1) (b := (d : ℚ)) (by norm_num) (by exact_mod_cast hd)
    rwa [roundF64_one] at this
  have hy0 : f64OfInt d ≠ 0 := by linarith
  have hypos : 0 < f64OfInt d := by linarith
  have hq0 : 0 ≤ f64OfInt e / f64OfInt d := div_nonneg hx0 (le_of_lt hypos)
  have hq1 : f64OfInt e / f64OfInt d ≤ 1 := (div_le_one hypos).2 hxy
  have hr0 : 0 ≤ roundF64 (f64OfInt e / f64OfInt d) := roundF64_nonneg hq0
  have hr1 : roundF64 (f64OfInt e / f64OfInt d) ≤ 1 := by
    have := roundF64_mono hq0 hq1
    rwa [roundF64_one] at this
  have hm0 : 0 ≤ f64Mul (roundF64 (f64OfInt e / f64OfInt d)) 20 :=
    roundF64_nonneg (by positivity)
  have hm1 : f64Mul (roundF64 (f64OfInt e / f64OfInt d)) 20 ≤ 20 := by
    have := roundF64_mono (a := roundF64 (f64OfInt e / f64OfInt d) * 20) (b := 20)
      (by positivity) (by linarith)
    rwa [roundF64_twenty] at this
  have hf0 : 0 ≤ ⌊f64Mul (roundF64 (f64OfInt e / f64OfInt d)) 20⌋ := Int.floor_nonneg.2 hm0
  have hf1 : ⌊f64Mul (roundF64 (f64OfInt e / f64OfInt d)) 20⌋ ≤ 20 := by
    have := Int.floor_mono hm1
    rwa [show (20 : ℚ) = ((20 : Int) : ℚ) by norm_num, Int.floor_intCast] at this
  refine ⟨⌊f64Mul (roundF64 (f64OfInt e / f64OfInt d)) 20⌋, ?_, hf0, hf1⟩
  have hcast : (0 : ℚ) ≤ ((⌊f64Mul (roundF64 (f64OfInt e / f64OfInt d)) 20⌋ : Int) : ℚ) := by
    exact_mod_cast hf0
  simp only [progressOf, f64Div, if_neg hy0, f64ToInt, f64Floor, if_pos hcast, Int.floor_intCast]
  rw [if_pos]
  constructor
  · unfold minInt64; omega
  · unfold maxInt64; omega

theorem renderBar_of_bounds {p : Int} (h0 : 0 ≤ p) (h1 : p ≤ 20) : ∃ bar, renderBar p = some bar := by
  have hw : wrapInt64 (20 - p) = 20 - p :=
    wrapInt64_of_mem (by unfold minInt64; omega) (by unfold maxInt64; omega)
  unfold renderBar stringsRepeat
  rw [hw, if_neg (by omega), if_neg (by omega)]
  exact ⟨_, rfl⟩

/-! ## One iteration of the loop -/

/-- A tick handled in the Running state, when `endTime` is at most one duration
ahead: nothing panics, `remaining` is the clamped difference, and the fill
count is between 0 and 20. -/
theorem handleTick_running (s : LoopState) (now : Int)
    (hrun : s.timer.state = StateRunning) (hD : 0 < s.timer.duration)
    (hDmax : s.timer.duration ≤ maxDuration) (hend : s.endTime - now ≤ s.timer.duration) :
    ∃ fr, renderTick s now = some fr ∧
      handleTick s now = some { s with timer := { s.timer with remaining := fr.remaining } } ∧
      fr.remaining = max 0 (timeSub s.endTime now) ∧
      fr.elapsed = s.timer.duration - fr.remaining ∧
      0 ≤ fr.remaining ∧ fr.remaining ≤ s.timer.duration ∧
      0 ≤ fr.progress ∧ fr.progress ≤ 20 ∧
      (∃ a b, stringsRepeat "█" fr.progress = some a ∧
        stringsRepeat "░" (wrapInt64 (20 - fr.progress)) = some b) := by
  have hmaxD : maxDuration = 9223372036854775807 := rfl
  have hr : (if timeSub s.endTime now < 0 then 0 else timeSub s.endTime now)
      = max 0 (timeSub s.endTime now) := by
    split_ifs <;> omega
  have hts : timeSub s.endTime now ≤ s.timer.duration := by
    unfold timeSub minDuration minInt64
    split_ifs <;> omega
  have hr0 : 0 ≤ max 0 (timeSub s.endTime now) := by omega
  have hrD : max 0 (timeSub s.endTime now) ≤ s.timer.duration := by omega
  have hel : wrapInt64 (s.timer.duration - max 0 (timeSub s.endTime now))
      = s.timer.duration - max 0 (timeSub s.endTime now) :=
    wrapInt64_of_mem (by unfold minInt64; omega) (by unfold maxInt64; omega)
  obtain ⟨p, hp, hp0, hp20⟩ := progressOf_bounds
    (e := s.timer.duration - max 0 (timeSub s.endTime now)) (d := s.timer.duration)
    (by omega) (by omega) hD
  obtain ⟨bar, hbar⟩ := renderBar_of_bounds hp0 hp20
  have hrt : renderTick s now = some
      { remaining := max 0 (timeSub s.endTime now)
        elapsed := s.timer.duration - max 0 (timeSub s.endTime now)
        progress := p, bar := bar } := by
    simp only [renderTick, hr, hel, hp, hbar]
  refine ⟨_, hrt, ?_, rfl, rfl, hr0, hrD, hp0, hp20, ?_⟩
  · simp only [handleTick, if_pos hrun, hrt]
  · have hw : wrapInt64 (20 - p) = 20 - p :=
      wrapInt64_of_mem (by unfold minInt64; omega) (by unfold maxInt64; omega)
    simp only [stringsRepeat, hw]
    rw [if_neg (by omega), if_neg (by omega)]
    exact ⟨_, _, rfl, rfl⟩

theorem timeSince_of_le (now t : Int) (h0 : 0 ≤ t) (h1 : t ≤ now) (h2 : now ≤ maxInt64) :
    timeSince now t = now - t := by
  unfold timeSince timeSub maxDuration minDuration minInt64
  unfold maxInt64 at h2 ⊢
  split_ifs <;> omega

theorem timeSince_le (now t : Int) (h1 : t ≤ now) : timeSince now t ≤ now - t := by
  unfold timeSince timeSub maxDuration minDuration minInt64 maxInt64
  split_ifs <;> omega

/-- One iteration preserves `Inv` and does not panic. -/
theorem step_inv {D : Int} {s : LoopState} {last : Int} {e : Event}
    (hD : 0 < D) (hDmax : D ≤ maxDuration) (h : Inv D s last) (hle : last ≤ e.now) :
    ∃ s', step s e = some s' ∧ Inv D s' e.now := by
  obtain ⟨hdur, hact, hr0, hrD, hrun, hpau⟩ := h
  cases e with
  | tick now =>
    simp only [Event.now] at hle
    by_cases hst : s.timer.state = StateRunning
    · have hend := hrun hst
      obtain ⟨fr, -, hstep, -, -, hf0, hfD, -⟩ := handleTick_running s now hst
        (by rw [hdur]; exact hD) (by rw [hdur]; exact hDmax) (by rw [hdur]; omega)
      refine ⟨_, hstep, ⟨hdur, hact, hf0, by rw [← hdur]; exact hfD, ?_, ?_⟩⟩
      · intro _
        show s.endTime ≤ now + D
        omega
      · intro h2
        have h3 : s.timer.state = StatePaused := h2
        rw [hst] at h3
        cases h3
    · refine ⟨s, by simp only [step, handleTick, if_neg hst], ⟨hdur, hact, hr0, hrD, ?_, ?_⟩⟩
      · intro h2
        exact absurd h2 hst
      · intro h2
        have := hpau h2
        exact ⟨this.1, by simp only [Event.now]; omega⟩
  | input line now =>
    simp only [Event.now] at hle
    by_cases hline : line = ""
    · by_cases hst : s.timer.state = StateRunning
      · have hend := hrun hst
        refine ⟨_, by simp only [step, handleInput, if_pos hline, if_pos hst]; rfl, ?_⟩
        refine ⟨hdur, by simp, hr0, hrD, by simp, ?_⟩
        intro _
        show s.endTime ≤ now + D ∧ now ≤ now
        omega
      · have hp : s.timer.state = StatePaused := by
          cases hs : s.timer.state
          · exact absurd hs hact
          · exact absurd hs hst
          · rfl
        have hend := hpau hp
        have hsince := timeSince_le now s.timer.pausedAt (by omega)
        refine ⟨_, by simp only [step, handleInput, if_pos hline, if_neg hst, if_pos hp]; rfl, ?_⟩
        refine ⟨hdur, by simp, hr0, hrD, ?_, by simp⟩
        intro _
        show timeAdd s.endTime (timeSince now s.timer.pausedAt) ≤ now + D
        unfold timeAdd
        omega
    · refine ⟨s, by simp only [step, handleInput, if_neg hline], ⟨hdur, hact, hr0, hrD, ?_, ?_⟩⟩
      · intro h2
        have := hrun h2
        simp only [Event.now]
        omega
      · intro h2
        have := hpau h2
        exact ⟨this.1, by simp only [Event.now]; omega⟩

/-- One iteration preserves `InvR`, the running time advancing by the time
since the previous event when the timer was Running. -/
theorem step_invR {D : Int} {s : LoopState} {last R Rt : Int} {e : Event}
    (hD : 0 < D) (hDmax : D ≤ maxDuration) (h : InvR D s last R Rt)
    (hle : last ≤ e.now) (hmax : e.now ≤ maxInt64) :
    ∃ s', step s e = some s' ∧
      InvR D s' e.now (ranAfter s last R e) (ranAtTickAfter s last R Rt e) := by
  obtain ⟨hdur, hact, hclock, hrem, ht0, htR, hrun, hpau⟩ := h
  cases e with
  | tick now =>
    simp only [Event.now] at hle hmax
    by_cases hst : s.timer.state = StateRunning
    · have hend := hrun hst
      obtain ⟨fr, -, hstep, hfr, -⟩ := handleTick_running s now hst
        (by rw [hdur]; exact hD) (by rw [hdur]; exact hDmax) (by rw [hdur]; omega)
      have hsub : max 0 (timeSub s.endTime now) = max 0 (D - (R + (now - last))) := by
        unfold timeSub maxDuration minDuration minInt64 maxInt64
        unfold maxDuration maxInt64 at hDmax
        split_ifs <;> omega
      refine ⟨_, hstep, ?_⟩
      simp only [ranAfter, ranAtTickAfter, if_pos hst, Event.now]
      refine ⟨hdur, hact, by omega, ?_, by omega, le_refl _, ?_, ?_⟩
      · show fr.remaining = _
        rw [hfr, hsub]
      · intro _
        show s.endTime = now + D - (R + (now - last))
        omega
      · intro h2
        have h3 : s.timer.state = StatePaused := h2
        rw [hst] at h3
        cases h3
    · refine ⟨s, by simp only [step, handleTick, if_neg hst], ?_⟩
      simp only [ranAfter, ranAtTickAfter, if_neg hst, Event.now]
      refine ⟨hdur, hact, by omega, hrem, ht0, htR, ?_, ?_⟩
      · intro h2
        exact absurd h2 hst
      · intro h2
        have := hpau h2
        exact ⟨this.1, this.2.1, by omega⟩
  | input line now =>
    simp only [Event.now] at hle hmax
    by_cases hline : line = ""
    · by_cases hst : s.timer.state = StateRunning
      · have hend := hrun hst
        refine ⟨_, by simp only [step, handleInput, if_pos hline, if_pos hst]; rfl, ?_⟩
        simp only [ranAfter, ranAtTickAfter, if_pos hst, Event.now]
        refine ⟨hdur, by simp, by omega, hrem, ht0, by omega, by simp, ?_⟩
        intro _
        show s.endTime = now + D - (R + (now - last)) ∧ 0 ≤ now ∧ now ≤ now
        omega
      · have hp : s.timer.state = StatePaused := by
          cases hs : s.timer.state
          · exact absurd hs hact
          · exact absurd hs hst
          · rfl
        have hend := hpau hp
        have hsince := timeSince_of_le now s.timer.pausedAt hend.2.1
          (by omega) hmax
        refine ⟨_, by simp only [step, handleInput, if_pos hline, if_neg hst, if_pos hp]; rfl, ?_⟩
        simp only [ranAfter, ranAtTickAfter, if_neg hst, Event.now]
        refine ⟨hdur, by simp, by omega, hrem, ht0, htR, ?_, by simp⟩
        intro _
        show timeAdd s.endTime (timeSince now s.timer.pausedAt) = now + D - R
        unfold timeAdd
        omega
    · refine ⟨s, by simp only [step, handleInput, if_neg hline], ?_⟩
      simp only [ranAfter, ranAtTickAfter, Event.now]
      by_cases hst : s.timer.state = StateRunning
      · simp only [if_pos hst]
        refine ⟨hdur, hact, by omega, hrem, ht0, by omega, ?_, ?_⟩
        · intro _
          have := hrun hst
          omega
        · intro h2
          rw [hst] at h2
          cases h2
      · simp only [if_neg hst]
        refine ⟨hdur, hact, by omega, hrem, ht0, htR, ?_, ?_⟩
        · intro h2
          exact absurd h2 hst
        · intro h2
          have := hpau h2
          exact ⟨this.1, this.2.1, by omega⟩

/-! ## Runs of the loop -/

theorem nondecreasing_append (last : Int) (evs : List Event) (e : Event) :
    nondecreasing last (evs ++ [e]) = true ↔
      nondecreasing last evs = true ∧ lastTime last evs ≤ e.now := by
  induction evs generalizing last with
  | nil => simp [nondecreasing, lastTime]
  | cons a as ih =>
    simp only [List.cons_append, nondecreasing, lastTime, Bool.and_eq_true, decide_eq_true_eq,
      List.append_eq, ih, and_assoc]

theorem clockBounded_append (evs : List Event) (e : Event) :
    clockBounded (evs ++ [e]) = true ↔ clockBounded evs = true ∧ e.now ≤ maxInt64 := by
  simp [clockBounded]

theorem inv_init {timer : Timer} {start : Int} (hD : 0 < timer.duration)
    (hstate : timer.state = StateRunning) :
    Inv timer.duration (runTimerInit timer start) start := by
  refine ⟨rfl, ?_, ?_, ?_, ?_, ?_⟩
  · show timer.state ≠ StateStopped
    rw [hstate]; decide
  · show 0 ≤ timer.duration
    omega
  · exact le_refl _
  · intro _
    show timeAdd start timer.duration ≤ start + timer.duration
    exact le_refl _
  · intro h
    have h2 : timer.state = StatePaused := h
    rw [hstate] at h2
    cases h2

theorem invR_init {timer : Timer} {start : Int} (hD : 0 < timer.duration)
    (hstate : timer.state = StateRunning) (hstart : 0 ≤ start) :
    InvR timer.duration (runTimerInit timer start) start 0 0 := by
  refine ⟨rfl, ?_, hstart, ?_, le_refl _, le_refl _, ?_, ?_⟩
  · show timer.state ≠ StateStopped
    rw [hstate]; decide
  · show timer.duration = max 0 (timer.duration - 0)
    omega
  · intro _
    show timeAdd start timer.duration = start + timer.duration - 0
    unfold timeAdd
    omega
  · intro h
    have h2 : timer.state = StatePaused := h
    rw [hstate] at h2
    cases h2

/-- A run over events with non-decreasing time stamps never panics, and when
all events were consumed the invariant holds at the time of the last one. -/
theorem runLoop_inv {D : Int} (hD : 0 < D) (hDmax : D ≤ maxDuration) (evs : List Event) :
    ∀ (s : LoopState) (last : Int), Inv D s last → nondecreasing last evs = true →
      ∃ s' rest, runLoop s evs = some (s', rest) ∧ (∃ last', Inv D s' last') ∧
        (rest = [] → Inv D s' (lastTime last evs)) := by
  induction evs with
  | nil =>
    intro s last h _
    exact ⟨s, [], rfl, ⟨last, h⟩, fun _ => h⟩
  | cons e es ih =>
    intro s last h hord
    simp only [nondecreasing, Bool.and_eq_true, decide_eq_true_eq] at hord
    by_cases hgo : 0 < s.timer.remaining
    · obtain ⟨s1, hs1, h1⟩ := step_inv hD hDmax h hord.1
      obtain ⟨s', rest, hrun, hinv⟩ := ih s1 e.now h1 hord.2
      refine ⟨s', rest, ?_, hinv⟩
      simp only [runLoop, if_pos hgo, hs1, hrun]
    · refine ⟨s, e :: es, by simp only [runLoop, if_neg hgo], ⟨last, h⟩, ?_⟩
      intro hnil
      cases hnil

/-- A run that consumed all of its events: the invariant `InvR` holds at the
time of the last event, the running time having grown by `runningTime`. -/
theorem runLoop_invR {D : Int} (hD : 0 < D) (hDmax : D ≤ maxDuration) (evs : List Event) :
    ∀ (s : LoopState) (last R Rt : Int) (s' : LoopState), InvR D s last R Rt →
      nondecreasing last evs = true → clockBounded evs = true →
      runLoop s evs = some (s', []) →
      ∃ Rt', InvR D s' (lastTime last evs) (R + runningTime s last evs) Rt' := by
  induction evs with
  | nil =>
    intro s last R Rt s' h _ _ hrun
    simp only [runLoop, Option.some.injEq, Prod.mk.injEq, and_true] at hrun
    subst hrun
    exact ⟨Rt, by simpa [runningTime, lastTime] using h⟩
  | cons e es ih =>
    intro s last R Rt s' h hord hclock hrun
    simp only [nondecreasing, Bool.and_eq_true, decide_eq_true_eq] at hord
    simp only [clockBounded, List.all_cons, Bool.and_eq_true, decide_eq_true_eq] at hclock
    by_cases hgo : 0 < s.timer.remaining
    · obtain ⟨s1, hs1, h1⟩ := step_invR hD hDmax h hord.1 hclock.1
      simp only [runLoop, if_pos hgo, hs1] at hrun
      obtain ⟨Rt', h'⟩ := ih s1 e.now _ _ s' h1 hord.2 hclock.2 hrun
      refine ⟨Rt', ?_⟩
      have hR : R + runningTime s last (e :: es)
          = ranAfter s last R e + runningTime s1 e.now es := by
        simp only [runningTime, if_pos hgo, hs1, ranAfter]
        split_ifs <;> omega
      rw [hR]
      exact h'
    · simp only [runLoop, if_neg hgo, Option.some.injEq, Prod.mk.injEq] at hrun
      exact absurd hrun.2 (by simp)

/-- The running time of a run splits at any point up to which all events were
consumed. -/
theorem runningTime_append (evs es2 : List Event) :
    ∀ (s : LoopState) (last : Int) (s' : LoopState), runLoop s evs = some (s', []) →
      runningTime s last (evs ++ es2)
        = runningTime s last evs + runningTime s' (lastTime last evs) es2 := by
  induction evs with
  | nil =>
    intro s last s' hrun
    simp only [runLoop, Option.some.injEq, Prod.mk.injEq, and_true] at hrun
    subst hrun
    simp [runningTime, lastTime]
  | cons e es ih =>
    intro s last s' hrun
    by_cases hgo : 0 < s.timer.remaining
    · simp only [runLoop, if_pos hgo] at hrun
      cases hs1 : step s e with
      | none => rw [hs1] at hrun; cases hrun
      | some s1 =>
        rw [hs1] at hrun
        simp only [List.cons_append, runningTime, if_pos hgo, hs1, lastTime, List.append_eq]
        rw [ih s1 e.now s' hrun]
        omega
    · simp only [runLoop, if_neg hgo, Option.some.injEq, Prod.mk.injEq] at hrun
      exact absurd hrun.2 (by simp)

theorem lastTime_append (last : Int) (evs : List Event) (e : Event) :
    lastTime last (evs ++ [e]) = e.now := by
  induction evs generalizing last with
  | nil => rfl
  | cons a as ih => simpa [lastTime] using ih a.now

/-- The timer is Running or Paused at every moment of a run: the time spent
Running and the time spent Paused add up to the time since run entry. -/
theorem runningTime_add_pausedTime {D : Int} (hD : 0 < D) (hDmax : D ≤ maxDuration)
    (evs : List Event) :
    ∀ (s : LoopState) (last R Rt : Int) (s' : LoopState), InvR D s last R Rt →
      nondecreasing last evs = true → clockBounded evs = true →
      runLoop s evs = some (s', []) →
      runningTime s last evs + pausedTime s last evs = lastTime last evs - last := by
  induction evs with
  | nil =>
    intro s last R Rt s' _ _ _ _
    simp [runningTime, pausedTime, lastTime]
  | cons e es ih =>
    intro s last R Rt s' h hord hclock hrun
    simp only [nondecreasing, Bool.and_eq_true, decide_eq_true_eq] at hord
    simp only [clockBounded, List.all_cons, Bool.and_eq_true, decide_eq_true_eq] at hclock
    by_cases hgo : 0 < s.timer.remaining
    · obtain ⟨s1, hs1, h1⟩ := step_invR hD hDmax h hord.1 hclock.1
      simp only [runLoop, if_pos hgo, hs1] at hrun
      have hrec := ih s1 e.now _ _ s' h1 hord.2 hclock.2 hrun
      simp only [runningTime, pausedTime, if_pos hgo, hs1, lastTime]
      have hact := h.active
      cases hst : s.timer.state with
      | StateStopped => exact absurd hst hact
      | StateRunning => simp; omega
      | StatePaused => simp; omega
    · simp only [runLoop, if_neg hgo, Option.some.injEq, Prod.mk.injEq] at hrun
      exact absurd hrun.2 (by simp)

theorem runLoop_append (evs es2 : List Event) :
    ∀ (s s' : LoopState), runLoop s evs = some (s', []) →
      runLoop s (evs ++ es2) = runLoop s' es2 := by
  induction evs with
  | nil =>
    intro s s' hrun
    simp only [runLoop, Option.some.injEq, Prod.mk.injEq, and_true] at hrun
    subst hrun
    rfl
  | cons e es ih =>
    intro s s' hrun
    by_cases hgo : 0 < s.timer.remaining
    · simp only [runLoop, if_pos hgo] at hrun
      cases hs1 : step s e with
      | none => rw [hs1] at hrun; cases hrun
      | some s1 =>
        rw [hs1] at hrun
        simp only [List.cons_append, runLoop, if_pos hgo, hs1, List.append_eq]
        exact ih s1 s' hrun
    · simp only [runLoop, if_neg hgo, Option.some.injEq, Prod.mk.injEq] at hrun
      exact absurd hrun.2 (by simp)

theorem renderTick_progress {s : LoopState} {now : Int} {fr : Frame}
    (h : renderTick s now = some fr) :
    progressOf fr.elapsed s.timer.duration = some fr.progress := by
  unfold renderTick at h
  dsimp only at h
  generalize (if timeSub s.endTime now < 0 then 0 else timeSub s.endTime now) = r at h
  cases hp : progressOf (wrapInt64 (s.timer.duration - r)) s.timer.duration with
  | none => rw [hp] at h; cases h
  | some p =>
    rw [hp] at h
    dsimp only at h
    cases hb : renderBar p with
    | none => rw [hb] at h; cases h
    | some bar =>
      rw [hb] at h
      dsimp only at h
      cases h
      exact hp

/-! ## The timer engine: elapsed time, clamping and progress -/

/-- C2. For a run of `runTimer` entered in the Running state with a positive
duration `D`, over events handled at non-decreasing times read from a 64-bit
nanosecond clock: the run over the events does not panic, and if the loop is
still going and in the Running state when a further tick is handled at time
`t`, that tick computes `elapsed = duration - remaining = min D R`, where `R` is
the total time spent in the Running state from run entry to `t`; and `R` is
`t - start` minus the total time spent in the Paused state. -/
theorem runTimer_elapsed_eq_running_time (timer : Timer) (start : Int)
    (events : List Event) (t : Int)
    (hD : 0 < timer.duration) (hDmax : timer.duration ≤ maxDuration)
    (hstate : timer.state = StateRunning) (hstart : 0 ≤ start)
    (hord : nondecreasing start (events ++ [Event.tick t]) = true)
    (hclock : clockBounded (events ++ [Event.tick t]) = true) :
    ∃ s rest, runTimer timer start events = some (s, rest) ∧
      (rest = [] → 0 < s.timer.remaining → s.timer.state = StateRunning →
        ∃ fr s', renderTick s t = some fr ∧ step s (Event.tick t) = some s' ∧
          fr.elapsed = s'.timer.duration - s'.timer.remaining ∧
          fr.elapsed = min timer.duration
            (runningTime (runTimerInit timer start) start (events ++ [Event.tick t])) ∧
          runningTime (runTimerInit timer start) start (events ++ [Event.tick t])
            = (t - start)
              - pausedTime (runTimerInit timer start) start (events ++ [Event.tick t])) := by
  rw [nondecreasing_append] at hord
  rw [clockBounded_append] at hclock
  obtain ⟨s, rest, hrun, -, -⟩ :=
    runLoop_inv hD hDmax events _ start (inv_init hD hstate) hord.1
  refine ⟨s, rest, hrun, ?_⟩
  intro hrest hgo hst
  subst hrest
  obtain ⟨Rt, hinv⟩ := runLoop_invR hD hDmax events _ start 0 0 s
    (invR_init hD hstate hstart) hord.1 hclock.1 hrun
  have hend := hinv.running hst
  have hsub : max 0 (timeSub s.endTime t)
      = max 0 (timer.duration - (0 + runningTime (runTimerInit timer start) start events
          + (t - lastTime start events))) := by
    have h1 := hord.2
    have h2 := hinv.tick_le
    have h3 := hinv.tick_nonneg
    simp only [Event.now] at h1
    unfold timeSub maxDuration minDuration minInt64 maxInt64
    unfold maxDuration maxInt64 at hDmax
    split_ifs <;> omega
  obtain ⟨fr, hfr, hstep, hrem, hel, hf0, -⟩ := handleTick_running s t hst
    (by rw [hinv.dur]; exact hD) (by rw [hinv.dur]; exact hDmax)
    (by rw [hinv.dur]; have := hord.2; simp only [Event.now] at this; have := hinv.tick_le
        have := hinv.tick_nonneg; omega)
  refine ⟨fr, _, hfr, hstep, ?_, ?_, ?_⟩
  · rw [hel]
  rotate_left
  · have hfull : runLoop (runTimerInit timer start) (events ++ [Event.tick t])
        = some ({ s with timer := { s.timer with remaining := fr.remaining } }, []) := by
      rw [runLoop_append events [Event.tick t] _ s hrun]
      simp only [runLoop, if_pos hgo, step, hstep]
    have hsum := runningTime_add_pausedTime hD hDmax (events ++ [Event.tick t]) _ start 0 0 _
      (invR_init hD hstate hstart) ((nondecreasing_append _ _ _).2 hord)
      ((clockBounded_append _ _).2 hclock) hfull
    rw [lastTime_append] at hsum
    simp only [Event.now] at hsum
    omega
  · have hR : runningTime (runTimerInit timer start) start (events ++ [Event.tick t])
        = runningTime (runTimerInit timer start) start events + (t - lastTime start events) := by
      rw [runningTime_append events [Event.tick t] _ start s hrun]
      simp only [runningTime, if_pos hgo, if_pos hst, Event.now]
      cases step s (Event.tick t) <;> simp
    rw [hel, hrem, hsub, hR, hinv.dur]
    have := hinv.tick_le
    have := hinv.tick_nonneg
    omega

/-- C4. For a run of `runTimer` entered in the Running state with a positive
duration, over events handled at non-decreasing times: the run never panics,
and whenever a further tick is handled, `remaining` is not negative afterwards;
when that tick finds the timer Running, the fill count
`progress = int(math.Floor(float64(elapsed)/float64(duration)*20))` with
`elapsed = duration - remaining` satisfies `0 ≤ progress ≤ 20`, and both calls
of `strings.Repeat` (counts `progress` and `20 - progress`) succeed. -/
theorem runTimer_remaining_progress_bounds (timer : Timer) (start : Int)
    (events : List Event) (now : Int)
    (hD : 0 < timer.duration) (hDmax : timer.duration ≤ maxDuration)
    (hstate : timer.state = StateRunning)
    (hord : nondecreasing start (events ++ [Event.tick now]) = true) :
    ∃ s rest, runTimer timer start events = some (s, rest) ∧ 0 ≤ s.timer.remaining ∧
      (rest = [] → 0 < s.timer.remaining →
        ∃ s', step s (Event.tick now) = some s' ∧ 0 ≤ s'.timer.remaining ∧
          (s.timer.state = StateRunning →
            ∃ fr, renderTick s now = some fr ∧ s'.timer.remaining = fr.remaining ∧
              0 ≤ fr.remaining ∧ fr.elapsed = timer.duration - fr.remaining ∧
              progressOf fr.elapsed timer.duration = some fr.progress ∧
              0 ≤ fr.progress ∧ fr.progress ≤ 20 ∧
              0 ≤ 20 - fr.progress ∧
              (∃ a b, stringsRepeat "█" fr.progress = some a ∧
                stringsRepeat "░" (wrapInt64 (20 - fr.progress)) = some b))) := by
  rw [nondecreasing_append] at hord
  obtain ⟨s, rest, hrun, ⟨last', hany⟩, hinv⟩ :=
    runLoop_inv hD hDmax events _ start (inv_init hD hstate) hord.1
  refine ⟨s, rest, hrun, hany.rem_nonneg, ?_⟩
  intro hrest hgo
  have hinv := hinv hrest
  have hle : lastTime start events ≤ (Event.tick now).now := hord.2
  obtain ⟨s', hstep, hinv'⟩ := step_inv hD hDmax hinv hle
  refine ⟨s', hstep, hinv'.rem_nonneg, ?_⟩
  intro hst
  simp only [Event.now] at hle
  obtain ⟨fr, hfr, hstep2, -, hel, hf0, -, hp0, hp20, hrep⟩ :=
    handleTick_running s now hst
      (by rw [hinv.dur]; exact hD) (by rw [hinv.dur]; exact hDmax)
      (by rw [hinv.dur]; have := hinv.running hst; omega)
  have hs' : s' = { s with timer := { s.timer with remaining := fr.remaining } } := by
    have : step s (Event.tick now) = handleTick s now := rfl
    rw [this, hstep2] at hstep
    exact (Option.some.inj hstep).symm
  have hprog := renderTick_progress hfr
  rw [hinv.dur] at hprog hel
  refine ⟨fr, hfr, ?_, hf0, hel, hprog, hp0, hp20, by omega, hrep⟩
  rw [hs']

/-! ## Pause and resume -/

/-- C5, as the code has it. Handling an input line toggles the timer only when
the line is empty: then a Running timer becomes Paused and a Paused timer
becomes Running (a Stopped timer stays Stopped); a line that is not empty
leaves the whole state of the loop unchanged. -/
theorem handleInput_toggles_on_empty_line (s : LoopState) (line : String) (now : Int) :
    (handleInput s line now).timer.state
        = (if line = "" then
            (match s.timer.state with
             | StateRunning => StatePaused
             | StatePaused => StateRunning
             | StateStopped => StateStopped)
           else s.timer.state) ∧
      handleInput s line now = (if line = "" then handleInput s "" now else s) := by
  by_cases hline : line = ""
  · subst hline
    refine ⟨?_, by simp⟩
    cases hst : s.timer.state <;> simp [handleInput, hst]
  · simp [handleInput, hline]

/-- C5 as stated fails: a Running timer that receives the line `x` is still
Running afterwards. -/
theorem nonempty_line_does_not_toggle :
    runningState.timer.state = StateRunning ∧
      step runningState (Event.input "x" 11000000000) = some runningState ∧
      (handleInput runningState "x" 11000000000).timer.state ≠ StatePaused := by
  decide

/-! ## Running time at completion -/

theorem runLoop_done {s : LoopState} (h : s.timer.remaining ≤ 0) (evs : List Event) :
    runLoop s evs = some (s, evs) := by
  cases evs with
  | nil => rfl
  | cons e es => simp only [runLoop, if_neg (not_lt.2 h)]

/-- When no tick falls into a paused interval and the ticks are one second
apart, the running time exceeds the duration by less than a second once
`remaining` has reached zero. -/
theorem runLoop_cadence {D : Int} (hD : 0 < D) (hDmax : D ≤ maxDuration) (evs : List Event) :
    ∀ (s : LoopState) (last R Rt lastTick : Int) (s' : LoopState), InvR D s last R Rt →
      R - Rt ≤ last - lastTick →
      nondecreasing last evs = true → clockBounded evs = true →
      onCadence lastTick evs = true → ticksFindRunning s evs = true →
      runLoop s evs = some (s', []) →
      (s.timer.remaining ≤ 0 → R < D + Second) →
      (s'.timer.remaining ≤ 0 → R + runningTime s last evs < D + Second) := by
  induction evs with
  | nil =>
    intro s last R Rt lastTick s' _ _ _ _ _ _ hrun hdone
    simp only [runLoop, Option.some.injEq, Prod.mk.injEq, and_true] at hrun
    subst hrun
    simpa [runningTime] using hdone
  | cons e es ih =>
    intro s last R Rt lastTick s' h hgap hord hclock hcad hfind hrun _
    simp only [nondecreasing, Bool.and_eq_true, decide_eq_true_eq] at hord
    simp only [clockBounded, List.all_cons, Bool.and_eq_true, decide_eq_true_eq] at hclock
    by_cases hgo : 0 < s.timer.remaining
    · obtain ⟨s1, hs1, h1⟩ := step_invR hD hDmax h hord.1 hclock.1
      simp only [runLoop, if_pos hgo, hs1] at hrun
      simp only [ticksFindRunning, if_pos hgo, hs1, Bool.and_eq_true] at hfind
      have hR : R + runningTime s last (e :: es)
          = ranAfter s last R e + runningTime s1 e.now es := by
        simp only [runningTime, if_pos hgo, hs1, ranAfter]
        split_ifs <;> omega
      rw [hR]
      have hRt : Rt < D := by
        have := h.rem
        omega
      cases e with
      | tick now =>
        simp only [onCadence, Bool.and_eq_true, decide_eq_true_eq] at hcad
        have hst : s.timer.state = StateRunning := by simpa using hfind.1
        simp only [Event.now] at hord
        have hran : ranAfter s last R (Event.tick now) = R + (now - last) := by
          simp only [ranAfter, if_pos hst, Event.now]
        have hranT : ranAtTickAfter s last R Rt (Event.tick now) = R + (now - last) := by
          simp only [ranAtTickAfter, if_pos hst]
        rw [hran, hranT] at h1
        rw [hran]
        exact ih s1 now _ _ now s' h1 (by omega) hord.2 hclock.2 hcad.2 hfind.2 hrun
          (fun _ => by omega)
      | input line now =>
        simp only [onCadence] at hcad
        simp only [Event.now] at hord
        have hranT : ranAtTickAfter s last R Rt (Event.input line now) = Rt := rfl
        rw [hranT] at h1
        have hrem1 : s1.timer.remaining = s.timer.remaining := by
          rw [h1.rem, h.rem]
        have hran : ranAfter s last R (Event.input line now) - Rt ≤ now - lastTick := by
          simp only [ranAfter, Event.now]
          split_ifs <;> omega
        exact ih s1 now _ _ lastTick s' h1 hran hord.2 hclock.2 hcad hfind.2 hrun
          (fun hle => by omega)
    · simp only [runLoop, if_neg hgo, Option.some.injEq, Prod.mk.injEq] at hrun
      exact absurd hrun.2 (by simp)

theorem nondecreasing_append_list (last : Int) (evs es2 : List Event) :
    nondecreasing last (evs ++ es2) = true ↔
      nondecreasing last evs = true ∧ nondecreasing (lastTime last evs) es2 = true := by
  induction evs generalizing last with
  | nil => simp [nondecreasing, lastTime]
  | cons a as ih =>
    simp only [List.cons_append, nondecreasing, lastTime, Bool.and_eq_true, decide_eq_true_eq,
      List.append_eq, ih, and_assoc]

theorem clockBounded_append_list (evs es2 : List Event) :
    clockBounded (evs ++ es2) = true ↔ clockBounded evs = true ∧ clockBounded es2 = true := by
  simp [clockBounded, List.all_append]

/-- At run entry, and right after a tick handled in the Running state, the
running time at the last such tick is the running time so far. -/
theorem invR_at_running_tick (timer : Timer) (start : Int) (pre : List Event)
    (anchor : LoopState)
    (hD : 0 < timer.duration) (hDmax : timer.duration ≤ maxDuration)
    (hstate : timer.state = StateRunning) (hstart : 0 ≤ start)
    (hord : nondecreasing start pre = true) (hclock : clockBounded pre = true)
    (hpre : runTimer timer start pre = some (anchor, []))
    (hlast : pre = [] ∨ ∃ pre0 s0 t0, pre = pre0 ++ [Event.tick t0] ∧
      runTimer timer start pre0 = some (s0, []) ∧ s0.timer.state = StateRunning) :
    InvR timer.duration anchor (lastTime start pre)
      (runningTime (runTimerInit timer start) start pre)
      (runningTime (runTimerInit timer start) start pre) := by
  rcases hlast with hnil | ⟨pre0, s0, t0, hsplit, hpre0, hst0⟩
  · subst hnil
    simp only [runTimer, runLoop, Option.some.injEq, Prod.mk.injEq, and_true] at hpre
    subst hpre
    simpa [runningTime, lastTime] using invR_init hD hstate hstart
  · subst hsplit
    rw [nondecreasing_append] at hord
    rw [clockBounded_append] at hclock
    unfold runTimer at hpre hpre0
    obtain ⟨Rt0, hinv0⟩ := runLoop_invR hD hDmax pre0 _ start 0 0 s0
      (invR_init hD hstate hstart) hord.1 hclock.1 hpre0
    obtain ⟨s1, hs1, hinv1⟩ := step_invR (e := Event.tick t0) hD hDmax hinv0 hord.2 hclock.2
    rw [runLoop_append pre0 [Event.tick t0] _ s0 hpre0] at hpre
    have hgo0 : 0 < s0.timer.remaining := by
      by_contra hneg
      simp only [runLoop, if_neg hneg, Option.some.injEq, Prod.mk.injEq] at hpre
      exact absurd hpre.2 (by simp)
    simp only [runLoop, if_pos hgo0, hs1, Option.some.injEq, Prod.mk.injEq, and_true] at hpre
    subst hpre
    have hR : runningTime (runTimerInit timer start) start (pre0 ++ [Event.tick t0])
        = 0 + runningTime (runTimerInit timer start) start pre0
          + (t0 - lastTime start pre0) := by
      rw [runningTime_append pre0 [Event.tick t0] _ start s0 hpre0]
      simp only [runningTime, if_pos hgo0, if_pos hst0, Event.now, hs1]
      omega
    simp only [ranAfter, ranAtTickAfter, if_pos hst0, Event.now] at hinv1
    rw [lastTime_append, hR]
    exact hinv1

/-- C3, as the code has it. Take a run of `runTimer` entered in the Running state
with a positive duration `D`, over events handled at non-decreasing times read
from a 64-bit nanosecond clock, that has consumed its events and completed
(`remaining` is zero), and split its events at run entry (`pre` empty) or right
after any tick that was handled in the Running state and did not complete the
run. Then the sum of the lengths of the intervals spent in the Running state is
at least `D`; it exceeds `D` by less than the time spent in the Running state
after the split; and it is less than `D` plus one second when, after the
split, the ticks are on a fixed one-second cadence and every tick finds the
timer Running (no tick falls into a paused interval). -/
theorem runTimer_running_time_at_completion (timer : Timer) (start : Int)
    (pre post : List Event) (anchor s : LoopState)
    (hD : 0 < timer.duration) (hDmax : timer.duration ≤ maxDuration)
    (hstate : timer.state = StateRunning) (hstart : 0 ≤ start)
    (hord : nondecreasing start (pre ++ post) = true)
    (hclock : clockBounded (pre ++ post) = true)
    (hpre : runTimer timer start pre = some (anchor, []))
    (hgo : 0 < anchor.timer.remaining)
    (hlast : pre = [] ∨ ∃ pre0 s0 t0, pre = pre0 ++ [Event.tick t0] ∧
      runTimer timer start pre0 = some (s0, []) ∧ s0.timer.state = StateRunning)
    (hrun : runTimer timer start (pre ++ post) = some (s, []))
    (hdone : s.timer.remaining ≤ 0) :
    timer.duration ≤ runningTime (runTimerInit timer start) start (pre ++ post) ∧
      runningTime (runTimerInit timer start) start (pre ++ post)
        < timer.duration + runningTime anchor (lastTime start pre) post ∧
      (onCadence (lastTime start pre) post = true →
        ticksFindRunning anchor post = true →
        runningTime (runTimerInit timer start) start (pre ++ post)
          < timer.duration + Second) := by
  have hord2 := (nondecreasing_append_list _ _ _).1 hord
  have hclock2 := (clockBounded_append_list _ _).1 hclock
  have hanchor := invR_at_running_tick timer start pre anchor hD hDmax hstate hstart
    hord2.1 hclock2.1 hpre hlast
  have hsum := runningTime_append pre post _ start anchor hpre
  have hpost : runLoop anchor post = some (s, []) := by
    unfold runTimer at hrun hpre
    rwa [runLoop_append pre post _ anchor hpre] at hrun
  refine ⟨?_, ?_, ?_⟩
  · obtain ⟨Rt, hinv⟩ := runLoop_invR hD hDmax (pre ++ post) _ start 0 0 s
      (invR_init hD hstate hstart) hord hclock hrun
    have h1 := hinv.rem
    have h2 := hinv.tick_le
    omega
  · have h1 := hanchor.rem
    omega
  · intro hcad hfind
    have h := runLoop_cadence hD hDmax post anchor (lastTime start pre) _ _
      (lastTime start pre) s hanchor (by omega) hord2.2 hclock2.2 hcad hfind hpost
      (fun hle => by omega) hdone
    omega

/-- C3 as stated fails: in the run `skippedTickEvents` of a one-minute timer the
ticks are one second apart and the time stamps do not decrease, the run
completes at the tick of second 62, and the time spent in the Running state is
61.6 seconds, more than one second above the duration. -/
theorem running_time_exceeds_duration_by_more_than_a_tick :
    nondecreasing 0 skippedTickEvents = true ∧
      onCadence 0 skippedTickEvents = true ∧
      (runTimer (focusTimer 1) 0 skippedTickEvents).map
          (fun r => (r.1.timer.remaining, r.1.timer.state, r.2))
        = some (0, StateRunning, []) ∧
      (focusTimer 1).duration = 60000000000 ∧
      runningTime (runTimerInit (focusTimer 1) 0) 0 skippedTickEvents = 61600000000 ∧
      ¬ (runningTime (runTimerInit (focusTimer 1) 0) 0 skippedTickEvents
          ≤ (focusTimer 1).duration + Second) := by
  decide!

/-! ## Runs without pause -/

/-- A run of ticks that are one second apart, handled in the Running state
while the end time is not reached: after the tick of second `k + m` the
remaining time is `D - (k + m)` seconds. -/
theorem runLoop_ticks {D : Int} (start : Int) (hD : 0 < D) (hDmax : D ≤ maxDuration) (m : Nat) :
    ∀ (k : Nat) (s : LoopState), s.timer.state = StateRunning → s.timer.duration = D →
      s.endTime = start + D → s.timer.remaining = D - (k : Int) * Second →
      ((k + m : Nat) : Int) * Second < D →
      runLoop s ((List.range' (k + 1) m).map (fun (j : Nat) => Event.tick (start + (j : Int) * Second)))
        = some ({ s with timer := { s.timer with remaining := D - ((k + m : Nat) : Int) * Second } },
            []) := by
  induction m with
  | zero =>
    intro k s _ _ _ hrem _
    simp only [List.range'_zero, List.map_nil, runLoop, Nat.add_zero, ← hrem]
  | succ m ih =>
    intro k s hst hdur hend hrem hlt
    have hSec : Second = 1000000000 := rfl
    have hcast : ((k + (m + 1) : Nat) : Int) = (k : Int) + (m : Int) + 1 := by push_cast; ring
    rw [hcast] at hlt
    have hgo : 0 < s.timer.remaining := by
      rw [hrem]
      have : (0 : Int) ≤ (m : Int) := Int.ofNat_nonneg m
      nlinarith
    obtain ⟨fr, -, hstep, hfr, -⟩ :=
      handleTick_running s (start + ((k + 1 : Nat) : Int) * Second) hst
        (by rw [hdur]; exact hD) (by rw [hdur]; exact hDmax)
        (by rw [hdur, hend]; push_cast; rw [hSec]; omega)
    have hval : fr.remaining = D - ((k + 1 : Nat) : Int) * Second := by
      rw [hfr, hend]
      have h1 : ((k + 1 : Nat) : Int) * Second < D := by
        push_cast
        have : (0 : Int) ≤ (m : Int) := Int.ofNat_nonneg m
        nlinarith
      have h0 : (0 : Int) ≤ ((k + 1 : Nat) : Int) * Second := by
        rw [hSec]; omega
      unfold timeSub maxDuration minDuration minInt64 maxInt64
      unfold maxDuration maxInt64 at hDmax
      generalize ((k + 1 : Nat) : Int) * Second = x at h0 h1 ⊢
      split_ifs <;> omega
    rw [List.range'_succ, List.map_cons]
    simp only [runLoop, if_pos hgo, step, hstep]
    have hnext := ih (k + 1) { s with timer := { s.timer with remaining := fr.remaining } }
      hst hdur hend hval
      (by rw [show ((k + 1 + m : Nat) : Int) = (k : Int) + (m : Int) + 1 by push_cast; ring]
          exact hlt)
    rw [hnext]
    have hidx : ((k + 1 + m : Nat) : Int) = ((k + (m + 1) : Nat) : Int) := by push_cast; ring
    rw [hidx]

/-- C6. For a run of `runTimer` entered in the Running state with a duration
`D > 0` that receives no input, the ticks being handled at `start + k` seconds
for `k = 1, 2, ...`: after every tick handled at a time `t < start + D` the
remaining time is `start + D - t > 0` and the loop goes on; and there is a
first tick `n` with `start + n seconds ≥ start + D`, less than one second after
`D` has elapsed, immediately after which the loop has exited, later ticks being
left unconsumed, with `remaining = 0` and `elapsed = duration - remaining = D`. -/
theorem runTimer_without_pause (timer : Timer) (start : Int)
    (hD : 0 < timer.duration) (hDmax : timer.duration ≤ maxDuration)
    (hstate : timer.state = StateRunning) :
    (∀ k : Nat, (k : Int) * Second < timer.duration →
      ∃ s, runTimer timer start (tickEvents start k) = some (s, []) ∧
        s.timer.state = StateRunning ∧
        s.timer.remaining = start + timer.duration - (start + (k : Int) * Second) ∧
        0 < s.timer.remaining) ∧
    (∃ n : Nat, 1 ≤ n ∧ ((n : Int) - 1) * Second < timer.duration ∧
      timer.duration ≤ (n : Int) * Second ∧
      ∀ m : Nat, ∃ s,
        runTimer timer start (tickEvents start (n + m))
          = some (s, (tickEvents start (n + m)).drop n) ∧
        s.timer.remaining = 0 ∧ s.timer.duration - s.timer.remaining = timer.duration) := by
  have hSec : Second = 1000000000 := rfl
  have hticks : ∀ k : Nat, (k : Int) * Second < timer.duration →
      runLoop (runTimerInit timer start) (tickEvents start k)
        = some ({ (runTimerInit timer start) with
            timer := { (runTimerInit timer start).timer with
              remaining := timer.duration - (k : Int) * Second } }, []) := by
    intro k hk
    have h := runLoop_ticks start hD hDmax k 0 (runTimerInit timer start)
      hstate rfl rfl (by show timer.duration = _; simp) (by simpa using hk)
    simpa [tickEvents] using h
  constructor
  · intro k hk
    refine ⟨_, hticks k hk, hstate, ?_, ?_⟩
    · show timer.duration - (k : Int) * Second = _
      omega
    · show 0 < timer.duration - (k : Int) * Second
      omega
  · obtain ⟨k, hk1, hk2⟩ : ∃ k : Nat, (k : Int) * Second < timer.duration ∧
        timer.duration ≤ ((k : Int) + 1) * Second := by
      refine ⟨((timer.duration - 1) / 1000000000).toNat, ?_, ?_⟩ <;> rw [hSec] <;> omega
    refine ⟨k + 1, by omega, by push_cast; simpa using hk1, by push_cast; exact hk2, ?_⟩
    intro m
    have hsplit : tickEvents start (k + 1 + m)
        = tickEvents start k ++ (Event.tick (start + ((k + 1 : Nat) : Int) * Second) ::
            (List.range' (k + 2) m).map (fun (j : Nat) => Event.tick (start + (j : Int) * Second))) := by
      unfold tickEvents
      have h1 : List.range' 1 (k + 1 + m) = List.range' 1 k ++ List.range' (1 + k) (1 + m) := by
        rw [List.range'_append_1]
        congr 1
        omega
      rw [h1, List.map_append, show 1 + m = m + 1 by omega, List.range'_succ, List.map_cons,
        show 1 + k = k + 1 by omega, show k + 1 + 1 = k + 2 by omega]
    have hdrop : (tickEvents start (k + 1 + m)).drop (k + 1)
        = (List.range' (k + 2) m).map (fun (j : Nat) => Event.tick (start + (j : Int) * Second)) := by
      rw [hsplit, show tickEvents start k ++ (Event.tick (start + ((k + 1 : Nat) : Int) * Second) ::
            (List.range' (k + 2) m).map (fun (j : Nat) => Event.tick (start + (j : Int) * Second)))
          = (tickEvents start k ++ [Event.tick (start + ((k + 1 : Nat) : Int) * Second)]) ++
            (List.range' (k + 2) m).map (fun (j : Nat) => Event.tick (start + (j : Int) * Second)) by simp]
      exact List.drop_left' (by simp [tickEvents])
    have hgo : 0 < timer.duration - (k : Int) * Second := by omega
    obtain ⟨fr, -, hstep, hfr, -⟩ :=
      handleTick_running
        { (runTimerInit timer start) with
            timer := { (runTimerInit timer start).timer with
              remaining := timer.duration - (k : Int) * Second } }
        (start + ((k + 1 : Nat) : Int) * Second)
        hstate hD hDmax
        (by show timeAdd start timer.duration - _ ≤ timer.duration
            unfold timeAdd; push_cast; rw [hSec]; omega)
    have hzero : fr.remaining = 0 := by
      rw [hfr]
      show max 0 (timeSub (timeAdd start timer.duration) _) = 0
      unfold timeSub timeAdd maxDuration minDuration minInt64 maxInt64
      have h2 : timer.duration ≤ ((k + 1 : Nat) : Int) * Second := by push_cast; exact hk2
      generalize ((k + 1 : Nat) : Int) * Second = x at h2 ⊢
      split_ifs <;> omega
    refine ⟨{ (runTimerInit timer start) with
        timer := { (runTimerInit timer start).timer with remaining := fr.remaining } },
      ?_, hzero, ?_⟩
    · unfold runTimer
      rw [hdrop, hsplit, runLoop_append _ _ _ _ (hticks k hk1)]
      simp only [runLoop, if_pos hgo, step, hstep]
      exact runLoop_done (le_of_eq hzero) _
    · show timer.duration - fr.remaining = timer.duration
      omega

/-- Instance of C6: a one-minute timer after the tick of second 59. -/
theorem runTimer_without_pause_witness :
    ∃ s, runTimer (focusTimer 1) 0 (tickEvents 0 59) = some (s, []) ∧
      s.timer.state = StateRunning ∧
      s.timer.remaining = 0 + (focusTimer 1).duration - (0 + ((59 : Nat) : Int) * Second) ∧
      0 < s.timer.remaining :=
  (runTimer_without_pause (focusTimer 1) 0 (by decide) (by decide) rfl).1 59 (by decide)

/-! ## Concrete runs of the timer engine -/

/-- Instance of C2: after a two-second pause, the tick handled three seconds
after run entry computes an elapsed time of one second. -/
theorem runTimer_elapsed_eq_running_time_witness :
    ∃ fr s', renderTick pausedRunState 8000000000 = some fr ∧
      step pausedRunState (Event.tick 8000000000) = some s' ∧
      fr.elapsed = s'.timer.duration - s'.timer.remaining ∧
      fr.elapsed = 1000000000 := by
  obtain ⟨s, rest, hrun, h⟩ := runTimer_elapsed_eq_running_time (focusTimer 1) 5000000000
    pausedRunEvents 8000000000 (by decide) (by decide) rfl (by decide) (by decide) (by decide)
  have hrun' : runTimer (focusTimer 1) 5000000000 pausedRunEvents
      = some (pausedRunState, []) := by decide
  rw [hrun'] at hrun
  simp only [Option.some.injEq, Prod.mk.injEq] at hrun
  obtain ⟨hs, hrest⟩ := hrun
  subst hs
  obtain ⟨fr, s', h1, h2, h3, h4, -⟩ := h hrest.symm (by decide) rfl
  refine ⟨fr, s', h1, h2, h3, ?_⟩
  rw [h4]
  decide!

/-- Instance of C4 at the same run: the tick after the pause renders a frame
with a non-negative remaining time and a fill count between 0 and 20. -/
theorem runTimer_remaining_progress_bounds_witness :
    ∃ fr, renderTick pausedRunState 8000000000 = some fr ∧ 0 ≤ fr.remaining ∧
      fr.elapsed = (focusTimer 1).duration - fr.remaining ∧
      0 ≤ fr.progress ∧ fr.progress ≤ 20 := by
  obtain ⟨s, rest, hrun, -, h⟩ := runTimer_remaining_progress_bounds (focusTimer 1) 5000000000
    pausedRunEvents 8000000000 (by decide) (by decide) rfl (by decide)
  have hrun' : runTimer (focusTimer 1) 5000000000 pausedRunEvents
      = some (pausedRunState, []) := by decide
  rw [hrun'] at hrun
  simp only [Option.some.injEq, Prod.mk.injEq] at hrun
  obtain ⟨hs, hrest⟩ := hrun
  subst hs
  obtain ⟨s', -, -, h2⟩ := h hrest.symm (by decide)
  obtain ⟨fr, h3, -, h4, h5, -, h6, h7, -⟩ := h2 rfl
  exact ⟨fr, h3, h4, h5, h6, h7⟩

/-- Instance of C3 as amended: a one-minute run paused from 10.5 to 20.7 seconds,
split after the tick of second 21. Ten ticks fell into the pause, and the run
completes at the tick of second 71 after 60.8 seconds of running time. -/
theorem runTimer_running_time_at_completion_witness :
    (focusTimer 1).duration
        ≤ runningTime (runTimerInit (focusTimer 1) 0) 0
            ((longPauseEvents ++ [Event.tick 21000000000]) ++ longPauseLastTicks) ∧
      runningTime (runTimerInit (focusTimer 1) 0) 0
          ((longPauseEvents ++ [Event.tick 21000000000]) ++ longPauseLastTicks)
        < (focusTimer 1).duration + Second ∧
      runningTime (runTimerInit (focusTimer 1) 0) 0
          ((longPauseEvents ++ [Event.tick 21000000000]) ++ longPauseLastTicks)
        = 60800000000 := by
  have h := runTimer_running_time_at_completion (focusTimer 1) 0
    (longPauseEvents ++ [Event.tick 21000000000]) longPauseLastTicks
    longPauseAnchor longPauseFinal (by decide) (by decide) rfl (by decide) (by decide!)
    (by decide!) (by decide!) (by decide)
    (Or.inr ⟨longPauseEvents, longPauseResumed, 21000000000, rfl, by decide!, rfl⟩)
    (by decide!) (by decide)
  exact ⟨h.1, h.2.2 (by decide!) (by decide!), by decide!⟩

/-! ## Orchestration -/

theorem sessionAtDecision_focusCount (cfg : Config) : (sessionAtDecision cfg).focusCount = 1 := by
  simp only [sessionAtDecision, recordFocusCompletion, initialSession]
  decide

theorem sessionAtDecision_sessions (cfg : Config) :
    (sessionAtDecision cfg).sessionsBeforeLongBreak = cfg.sessionsBeforeLongBreak := rfl

theorem isLongBreakDue_at_decision (cfg : Config) (hs : cfg.sessionsBeforeLongBreak ≠ 0) :
    isLongBreakDue (sessionAtDecision cfg)
      = some (decide (cfg.sessionsBeforeLongBreak = 1 ∨ cfg.sessionsBeforeLongBreak = -1)) := by
  simp only [isLongBreakDue, goMod, sessionAtDecision_focusCount, sessionAtDecision_sessions,
    if_neg hs, Option.map_some', Option.some.injEq]
  rw [decide_eq_decide, ← Int.dvd_iff_tmod_eq_zero]
  constructor
  · intro hdvd
    have h1 : cfg.sessionsBeforeLongBreak ≤ 1 := Int.le_of_dvd (by decide) hdvd
    have h2 : -cfg.sessionsBeforeLongBreak ≤ 1 :=
      Int.le_of_dvd (by decide) (Int.neg_dvd.2 hdvd)
    omega
  · rintro (h | h)
    · rw [h]
    · rw [h]; decide

/-- The phases of `main` in terms of the break timer, when the help flag is not
set and the focus run returns. -/
theorem main_phases_of_focus_done (cfg : Config) (focusInput breakInput : PhaseInput)
    (timerB : Timer) (hhelp : cfg.showHelp = false)
    (hret : runTimerReturns (focusTimer cfg.focusMinutes) focusInput = some true)
    (hB : breakTimer (sessionAtDecision cfg) (focusTimer cfg.focusMinutes) = some timerB) :
    (main cfg focusInput breakInput).phases = [focusTimer cfg.focusMinutes, timerB] := by
  unfold sessionAtDecision at hB
  simp only [main, hhelp, hret, hB]
  cases runTimerReturns timerB breakInput with
  | none => simp
  | some b => cases b <;> simp

/-- The first phase of `main` is the focus timer whenever the help flag is not
set, and there are at most two phases. -/
theorem main_phases_head (cfg : Config) (focusInput breakInput : PhaseInput)
    (hhelp : cfg.showHelp = false) :
    (main cfg focusInput breakInput).phases = [focusTimer cfg.focusMinutes] ∨
      ∃ timerB, breakTimer (sessionAtDecision cfg) (focusTimer cfg.focusMinutes) = some timerB ∧
        runTimerReturns (focusTimer cfg.focusMinutes) focusInput = some true ∧
        (main cfg focusInput breakInput).phases = [focusTimer cfg.focusMinutes, timerB] := by
  cases hret : runTimerReturns (focusTimer cfg.focusMinutes) focusInput with
  | none => left; simp [main, hhelp, hret]
  | some b =>
    cases b with
    | false => left; simp [main, hhelp, hret]
    | true =>
      cases hB : breakTimer (sessionAtDecision cfg) (focusTimer cfg.focusMinutes) with
      | none =>
        left
        unfold sessionAtDecision at hB
        simp [main, hhelp, hret, hB]
      | some timerB =>
        right
        exact ⟨timerB, rfl, rfl, main_phases_of_focus_done cfg focusInput breakInput timerB hhelp
          hret hB⟩

theorem main_returns (cfg : Config) (focusInput breakInput : PhaseInput) (timerB : Timer)
    (hhelp : cfg.showHelp = false)
    (hret : runTimerReturns (focusTimer cfg.focusMinutes) focusInput = some true)
    (hB : breakTimer (sessionAtDecision cfg) (focusTimer cfg.focusMinutes) = some timerB)
    (hretB : runTimerReturns timerB breakInput = some true) :
    (main cfg focusInput breakInput).outcome = Outcome.returned := by
  unfold sessionAtDecision at hB
  simp only [main, hhelp, hret, hB, hretB]
  simp

/-- C10. In `main` as written `focusCount` is exactly 1 when the long-break
decision is taken, so for every configuration with
`sessionsBeforeLongBreak ≥ 2` the decision is false: the break timer that `main`
builds is the short one, with duration
`time.Duration(shortBreakMinutes) * time.Minute`; every break phase that `main`
starts is that timer, there is at most one, and it is started whenever the
focus run returns. -/
theorem main_single_break_is_short (cfg : Config) (focusInput breakInput : PhaseInput)
    (hs : 2 ≤ cfg.sessionsBeforeLongBreak) :
    (sessionAtDecision cfg).focusCount = 1 ∧
      isLongBreakDue (sessionAtDecision cfg) = some false ∧
      breakTimer (sessionAtDecision cfg) (focusTimer cfg.focusMinutes)
        = some (shortBreakTimer cfg) ∧
      (shortBreakTimer cfg).duration = wrapInt64 (cfg.breakMinutes * Minute) ∧
      (minInt64 ≤ cfg.breakMinutes * Minute ∧ cfg.breakMinutes * Minute ≤ maxInt64 →
        (shortBreakTimer cfg).duration = cfg.breakMinutes * Minute) ∧
      (∀ t ∈ (main cfg focusInput breakInput).phases, t.mode = "BREAK" →
        t = shortBreakTimer cfg) ∧
      ((main cfg focusInput breakInput).phases.filter (fun t => t.mode = "BREAK")).length ≤ 1 ∧
      (cfg.showHelp = false →
        runTimerReturns (focusTimer cfg.focusMinutes) focusInput = some true →
        (main cfg focusInput breakInput).phases
          = [focusTimer cfg.focusMinutes, shortBreakTimer cfg]) := by
  have hdec : isLongBreakDue (sessionAtDecision cfg) = some false := by
    rw [isLongBreakDue_at_decision cfg (by omega)]
    simp only [Option.some.injEq, decide_eq_false_iff_not]
    omega
  have hB : breakTimer (sessionAtDecision cfg) (focusTimer cfg.focusMinutes)
      = some (shortBreakTimer cfg) := by
    simp only [breakTimer, hdec]
    rfl
  have hfocus : (focusTimer cfg.focusMinutes).mode ≠ "BREAK" := by
    simp only [focusTimer]
    decide
  refine ⟨sessionAtDecision_focusCount cfg, hdec, hB, rfl, fun h => wrapInt64_of_mem h.1 h.2,
    ?_, ?_, ?_⟩
  · intro t ht hmode
    cases hhelp : cfg.showHelp with
    | true =>
      simp [main, hhelp] at ht
    | false =>
      rcases main_phases_head cfg focusInput breakInput hhelp with h1 | ⟨tB, h2, -, h3⟩
      · rw [h1] at ht
        simp only [List.mem_singleton] at ht
        subst ht
        exact absurd hmode hfocus
      · rw [h3] at ht
        rw [hB] at h2
        simp only [Option.some.injEq] at h2
        subst h2
        simp only [List.mem_cons, List.mem_singleton, List.not_mem_nil, or_false] at ht
        rcases ht with ht | ht
        · subst ht
          exact absurd hmode hfocus
        · exact ht
  · cases hhelp : cfg.showHelp with
    | true =>
      simp [main, hhelp]
    | false =>
      rcases main_phases_head cfg focusInput breakInput hhelp with h1 | ⟨tB, -, -, h3⟩
      · rw [h1]
        simp [hfocus]
      · rw [h3]
        simp only [List.filter_cons, decide_eq_true_eq, if_neg hfocus]
        split_ifs <;> simp
  · intro hhelp hret
    exact main_phases_of_focus_done cfg focusInput breakInput _ hhelp hret hB

/-- Instance of C10 with the default `-s 4`: the phases are the focus timer
and the short break timer. -/
theorem main_single_break_is_short_witness :
    (main oneMinuteFocusConfig (tickedPhase 0 60) (tickedPhase 61000000000 300)).phases
      = [focusTimer 1, shortBreakTimer oneMinuteFocusConfig] :=
  (main_single_break_is_short oneMinuteFocusConfig (tickedPhase 0 60)
    (tickedPhase 61000000000 300) (by decide)).2.2.2.2.2.2.2 rfl (by decide!)

/-- C8 fails on the code. With the flags `-f 1 -b 1 -l 1 -s 2`, both timer runs
being ticked to completion, `main` returns after one focus phase and one break
phase: no second focus phase is run, `focusCount` is 1 when the long-break
decision is taken and at the end, and the decision is false. -/
theorem main_two_sessions_runs_one_focus_phase :
    (main twoSessionsConfig (tickedPhase 0 60) (tickedPhase 61000000000 60)).outcome
        = Outcome.returned ∧
      (main twoSessionsConfig (tickedPhase 0 60) (tickedPhase 61000000000 60)).phases.map
          Timer.mode = ["FOCUS", "BREAK"] ∧
      (main twoSessionsConfig (tickedPhase 0 60) (tickedPhase 61000000000 60)).session.focusCount
        = 1 ∧
      (sessionAtDecision twoSessionsConfig).focusCount = 1 ∧
      isLongBreakDue (sessionAtDecision twoSessionsConfig) = some false := by
  decide!

/-- C7 as stated fails: with the flags `-f 1 -b 1 -l 2 -s -1` the configuration
is not rejected. The focus phase is run, the long-break decision does not
fault, a two-minute break is run and `main` returns. -/
theorem negative_sessions_config_is_not_rejected :
    negativeSessionsConfig.sessionsBeforeLongBreak ≤ 0 ∧
      (main negativeSessionsConfig (tickedPhase 0 60) (tickedPhase 61000000000 120)).outcome
        = Outcome.returned ∧
      (main negativeSessionsConfig (tickedPhase 0 60) (tickedPhase 61000000000 120)).phases.map
          (fun t => (t.mode, t.duration))
        = [("FOCUS", 60000000000), ("BREAK", 120000000000)] := by
  decide!

/-- With the flags `-f 1 -b 1 -l 2 -s 0` the focus phase is run to completion
and recorded, and the long-break decision then panics (integer divide by
zero): no break phase is started. -/
theorem zero_sessions_config_panics_after_focus :
    (main zeroSessionsConfig (tickedPhase 0 60) (tickedPhase 61000000000 60)).outcome
        = Outcome.panicked ∧
      (main zeroSessionsConfig (tickedPhase 0 60) (tickedPhase 61000000000 60)).phases
        = [focusTimer 1] ∧
      (main zeroSessionsConfig (tickedPhase 0 60) (tickedPhase 61000000000 60)).session.focusCount
        = 1 := by
  decide!

/-- C7, as the code has it. `main` does not validate `sessionsBeforeLongBreak`:
for every configuration with a value `≤ 0` (and without `-h`) the focus timer
is the first phase that is started; when the value is negative the long-break
decision taken after the focus phase does not fault, it is true exactly for
the value `-1`, the break timer is built accordingly, and `main` returns when
both timer runs return. -/
theorem main_does_not_validate_sessions (cfg : Config) (focusInput breakInput : PhaseInput)
    (hhelp : cfg.showHelp = false) (_hs : cfg.sessionsBeforeLongBreak ≤ 0) :
    (main cfg focusInput breakInput).phases.head? = some (focusTimer cfg.focusMinutes) ∧
      (cfg.sessionsBeforeLongBreak < 0 →
        isLongBreakDue (sessionAtDecision cfg)
          = some (decide (cfg.sessionsBeforeLongBreak = -1)) ∧
        breakTimer (sessionAtDecision cfg) (focusTimer cfg.focusMinutes)
          = some (if cfg.sessionsBeforeLongBreak = -1 then longBreakTimer cfg
                  else shortBreakTimer cfg) ∧
        (runTimerReturns (focusTimer cfg.focusMinutes) focusInput = some true →
          runTimerReturns (if cfg.sessionsBeforeLongBreak = -1 then longBreakTimer cfg
              else shortBreakTimer cfg) breakInput = some true →
          (main cfg focusInput breakInput).outcome = Outcome.returned)) := by
  constructor
  · rcases main_phases_head cfg focusInput breakInput hhelp with h1 | ⟨tB, -, -, h3⟩
    · rw [h1]; rfl
    · rw [h3]; rfl
  · intro hneg
    have hdec : isLongBreakDue (sessionAtDecision cfg)
        = some (decide (cfg.sessionsBeforeLongBreak = -1)) := by
      rw [isLongBreakDue_at_decision cfg (by omega)]
      simp only [Option.some.injEq, decide_eq_decide]
      omega
    have hB : breakTimer (sessionAtDecision cfg) (focusTimer cfg.focusMinutes)
        = some (if cfg.sessionsBeforeLongBreak = -1 then longBreakTimer cfg
                else shortBreakTimer cfg) := by
      simp only [breakTimer, hdec]
      by_cases h : cfg.sessionsBeforeLongBreak = -1
      · simp only [h, decide_True, if_true]
        rfl
      · simp only [h, decide_False, if_false]
        rfl
    exact ⟨hdec, hB, fun hret hretB =>
      main_returns cfg focusInput breakInput _ hhelp hret hB hretB⟩

/-- Instance of C7 as amended at `-s -1`: the focus timer is started first and
the long-break decision is true. -/
theorem main_does_not_validate_sessions_witness :
    (main negativeSessionsConfig (tickedPhase 0 60) (tickedPhase 61000000000 120)).phases.head?
        = some (focusTimer 1) ∧
      isLongBreakDue (sessionAtDecision negativeSessionsConfig) = some true :=
  have h := main_does_not_validate_sessions negativeSessionsConfig (tickedPhase 0 60)
    (tickedPhase 61000000000 120) rfl (by decide)
  ⟨h.1, (h.2 (by decide)).1⟩

end Gomodoro
